import Mathlib

/-! TinyLCD: the `LCD_I2C` driver (HD44780 behind a PCF8574 expander).

A shallow embedding of `src/LCD_I2C.cpp`.  The C++ object becomes the record
`LCD_I2C.State`; every member function becomes a function on that record.
The calls the driver makes into its environment (`Wire.*`, `delay`,
`delayMicroseconds`) are recorded, in program order, in the `trace` field.

`uint8_t` values are natural numbers; `u8` marks every place where C++ converts
an `int` expression back to `uint8_t`.
-/

set_option linter.dupNamespace false

namespace LCD_I2C

/-! ## Environment calls -/

/-- One call of the driver into the Arduino runtime. -/
inductive Event where
  | wireBegin
  | requestFrom (addr quantity : Nat)
  | wireRead
  | beginTransmission (addr : Nat)
  | wireWrite (value : Nat)
  | endTransmission
  | delay (ms : Nat)
  | delayMicroseconds (us : Nat)
deriving DecidableEq, Repr

/-! ## Constants of `LCD_I2C.cpp` -/

abbrev CMD_CLEAR : Nat := 0x01
abbrev CMD_HOME : Nat := 0x02
abbrev CMD_EM : Nat := 0x04
abbrev CMD_CTRL : Nat := 0x08
abbrev CMD_SHIFT : Nat := 0x10
abbrev CMD_FUNC : Nat := 0x20
abbrev CMD_SET_CGRAM : Nat := 0x40
abbrev CMD_SET_DDRAM : Nat := 0x80

abbrev EM_DO_SHIFT_DISPLAY : Nat := 0x01
abbrev EM_DONT_SHIFT_DISPLAY : Nat := 0x00
abbrev EM_INCREMENT : Nat := 0x02
abbrev EM_DECREMENT : Nat := 0x00

abbrev CTRL_BLINK_ON : Nat := 0x01
abbrev CTRL_BLINK_OFF : Nat := 0x00
abbrev CTRL_CURSOR_ON : Nat := 0x02
abbrev CTRL_CURSOR_OFF : Nat := 0x00
abbrev CTRL_DISPLAY_ON : Nat := 0x04
abbrev CTRL_DISPLAY_OFF : Nat := 0x00

abbrev FUNC_5x10 : Nat := 0x04
abbrev FUNC_5x8 : Nat := 0x00
abbrev FUNC_2LINES : Nat := 0x08
abbrev FUNC_1LINE : Nat := 0x00
abbrev FUNC_8BIT : Nat := 0x10
abbrev FUNC_4BIT : Nat := 0x00

abbrev MODE_4BIT : Nat := CMD_FUNC >>> 4
abbrev MODE_8BIT : Nat := (CMD_FUNC ||| FUNC_8BIT) >>> 4

abbrev CLEAR_WAIT_MS : Nat := 2

/-! ## Machine arithmetic -/

/-- Conversion of an `int` value to `uint8_t`. -/
def u8 (x : Nat) : Nat := x % 256

/-- The low eight bits of the C++ `~x` of a byte `x`.  `~x` is an `int` with all
higher bits set, so for a byte `a` the expression `a & ~x` is `a &&& compl8 x`. -/
def compl8 (x : Nat) : Nat := 0xFF ^^^ u8 x

/-! ## The object -/

/-- The data members of `class LCD_I2C` (same names), plus the `trace` of
environment calls made so far, oldest first. -/
structure State where
  _isReady : Nat
  _width : Nat
  _height : Nat
  _i2cAddr : Nat
  _ctrlFlags : Nat
  _backlightStatus : Nat
  _enablePin : Nat
  _registerSelectPin : Nat
  _backlightPin : Nat
  _dataPin : List Nat
  trace : List Event
deriving DecidableEq, Repr

/-- Record one environment call. -/
def emit (s : State) (e : Event) : State :=
  { s with trace := s.trace ++ [e] }

/-- `LCD_I2C::writeI2C`. -/
def writeI2C (s : State) (value : Nat) : State :=
  if s._isReady ≠ 0 then
    let s := emit s (.beginTransmission s._i2cAddr)
    let s := emit s (.wireWrite value)
    let s := emit s (.delayMicroseconds 2)
    let s := emit s .endTransmission
    emit s (.delayMicroseconds 2)
  else
    s

/-- The loop of `LCD_I2C::mapPins`: `n` iterations are left, `i` is the loop
counter. -/
def mapPinsLoop (dataPin : List Nat) : Nat → Nat → Nat → Nat → Nat
  | 0, _, _, mapped => mapped
  | n + 1, i, value, mapped =>
    let mapped := if value &&& 0x1 ≠ 0 then u8 (mapped ||| dataPin.getD i 0) else mapped
    mapPinsLoop dataPin n (i + 1) (u8 (value >>> 1)) mapped

/-- `LCD_I2C::mapPins`. -/
def mapPins (s : State) (value : Nat) : Nat :=
  mapPinsLoop s._dataPin 4 0 value 0

/-- `LCD_I2C::writeDataNibble`. -/
def writeDataNibble (s : State) (value : Nat) : State :=
  let mapped := u8 (mapPins s value ||| s._registerSelectPin ||| s._backlightStatus)
  let s := writeI2C s (u8 (mapped ||| s._enablePin))
  writeI2C s (u8 (mapped &&& compl8 s._enablePin))

/-- `LCD_I2C::writeCmdNibble`. -/
def writeCmdNibble (s : State) (value : Nat) : State :=
  let mapped := u8 (mapPins s value ||| s._backlightStatus)
  let s := writeI2C s (u8 (mapped ||| s._enablePin))
  writeI2C s (u8 (mapped &&& compl8 s._enablePin))

/-- `LCD_I2C::sendCmdNibble`. -/
def sendCmdNibble (s : State) (value : Nat) : State :=
  writeCmdNibble s (u8 (value &&& 0xF))

/-- `LCD_I2C::sendCmd`. -/
def sendCmd (s : State) (value : Nat) : State :=
  let s := writeCmdNibble s (u8 (value >>> 4))
  writeCmdNibble s (u8 (value &&& 0xF))

/-- `LCD_I2C::printChar`. -/
def printChar (s : State) (value : Nat) : State :=
  let s := writeDataNibble s (u8 (value >>> 4))
  writeDataNibble s (u8 (value &&& 0x0F))

/-- C `strlen` on a character buffer: the number of bytes before the first NUL. -/
def strlen : List Nat → Nat
  | [] => 0
  | c :: cs => if c = 0 then 0 else strlen cs + 1

/-- The `for` loop of `LCD_I2C::print`, with the `uint8_t` counter `i`.  The
first argument bounds the number of loop tests; `none` means the loop is still
running when the bound is used up. -/
def printLoop (msg : List Nat) : Nat → Nat → State → Option State
  | 0, _, _ => none
  | fuel + 1, i, s =>
    if i < strlen msg then
      printLoop msg fuel (u8 (i + 1)) (printChar s (u8 (msg.getD i 0)))
    else
      some s

/-- `LCD_I2C::print`. -/
def print (fuel : Nat) (s : State) (msg : List Nat) : Option State :=
  printLoop msg fuel 0 s

/-- `LCD_I2C::clear`. -/
def clear (s : State) : State :=
  let s := sendCmd s CMD_CLEAR
  emit s (.delay CLEAR_WAIT_MS)

/-- `LCD_I2C::setCursor`. -/
def setCursor (s : State) (x y : Nat) : State :=
  let x := if x ≥ s._width then u8 (s._width + 255) else x
  let y := if y ≥ s._height then u8 (s._height + 255) else y
  sendCmd s (u8 (CMD_SET_DDRAM ||| (x + y * 0x40)))

/-- `LCD_I2C::backlightOn`. -/
def backlightOn (s : State) : State :=
  let s := { s with _backlightStatus := s._backlightPin }
  sendCmd s (u8 (CMD_CTRL ||| s._ctrlFlags))

/-- `LCD_I2C::backlightOff`. -/
def backlightOff (s : State) : State :=
  let s := { s with _backlightStatus := 0 }
  sendCmd s (u8 (CMD_CTRL ||| s._ctrlFlags))

/-- `LCD_I2C::displayOn`. -/
def displayOn (s : State) : State :=
  let s := { s with _ctrlFlags := u8 (s._ctrlFlags ||| CTRL_DISPLAY_ON) }
  sendCmd s (u8 (CMD_CTRL ||| s._ctrlFlags))

/-- `LCD_I2C::displayOff`. -/
def displayOff (s : State) : State :=
  let s := { s with _ctrlFlags := u8 (s._ctrlFlags &&& compl8 CTRL_DISPLAY_ON) }
  sendCmd s (u8 (CMD_CTRL ||| s._ctrlFlags))

/-- `LCD_I2C::initI2C`.  `response` is what `Wire.requestFrom` returns (the
number of bytes the device delivered).  The result pairs the new state with the
returned value.  The `Wire.setClock` call exists only in the build for
`ARDUINO_ESP8266_WEMOS_D1MINI` and is not part of this model. -/
def initI2C (s : State) (response : Nat) : State × Nat :=
  let s := emit s .wireBegin
  let s := emit s (.requestFrom s._i2cAddr 1)
  let s := { s with _isReady := response }
  let s := emit s .wireRead
  let s := if s._isReady ≠ 0 then writeI2C s 0 else s
  (s, s._isReady)

/-- `LCD_I2C::initHD44780`. -/
def initHD44780 (s : State) (response : Nat) : State :=
  let r := initI2C s response
  let s := r.1
  if r.2 ≠ 0 then
    let s := { s with _backlightStatus := 0 }
    let s := emit s (.delay 150)
    let s := sendCmdNibble s MODE_8BIT
    let s := emit s (.delayMicroseconds 4200)
    let s := sendCmdNibble s MODE_8BIT
    let s := emit s (.delayMicroseconds 110)
    let s := sendCmdNibble s MODE_8BIT
    let s := emit s (.delayMicroseconds 110)
    let s := sendCmdNibble s MODE_4BIT
    let s := sendCmd s (u8 (CMD_FUNC ||| FUNC_4BIT ||| FUNC_2LINES ||| FUNC_5x8))
    let s := { s with _ctrlFlags := u8 (CTRL_CURSOR_OFF ||| CTRL_BLINK_OFF) }
    let s := displayOff s
    let s := clear s
    let s := sendCmd s (u8 (CMD_EM ||| EM_INCREMENT ||| EM_DONT_SHIFT_DISPLAY))
    let s := backlightOn s
    displayOn s
  else
    s

/-- The constructor `LCD_I2C::LCD_I2C`.  `response` is the answer of the
transport to the probe.  `ctrl0` and `bl0` are the indeterminate bytes found in
`_ctrlFlags` and `_backlightStatus`, which the constructor assigns only after a
successful probe. -/
def LCD_I2C (i2cAddr response ctrl0 bl0 : Nat) : State :=
  let s : State :=
    { _isReady := 0
      _i2cAddr := i2cAddr
      _width := 16
      _height := 2
      _registerSelectPin := u8 (1 <<< 0)
      _enablePin := u8 (1 <<< 2)
      _backlightPin := u8 (1 <<< 3)
      _dataPin := [u8 (1 <<< 4), u8 (1 <<< 5), u8 (1 <<< 6), u8 (1 <<< 7)]
      _ctrlFlags := ctrl0
      _backlightStatus := bl0
      trace := [] }
  initHD44780 s response

/-- The bytes handed to `Wire.write`, in order: the transport writes. -/
def writes : List Event → List Nat
  | [] => []
  | .wireWrite v :: es => v :: writes es
  | _ :: es => writes es

/-! ## Public operations and reachable states -/

/-- One call of a public member function that returns: `Step s t` says that the
call starts in `s` and leaves the object in `t`.  Arguments are not restricted
to bytes; every function converts what it uses with `u8`. -/
inductive Step : State → State → Prop where
  | clear (s : State) : Step s (clear s)
  | setCursor (s : State) (x y : Nat) : Step s (setCursor s x y)
  | backlightOn (s : State) : Step s (backlightOn s)
  | backlightOff (s : State) : Step s (backlightOff s)
  | displayOn (s : State) : Step s (displayOn s)
  | displayOff (s : State) : Step s (displayOff s)
  | print (s t : State) (msg : List Nat) (fuel : Nat) (h : print fuel s msg = some t) : Step s t
  | printChar (s : State) (value : Nat) : Step s (printChar s value)

/-- States of an object after construction and any finite sequence of public
calls. -/
def Reachable (s : State) : Prop :=
  ∃ i2cAddr response ctrl0 bl0,
    Relation.ReflTransGen Step (LCD_I2C i2cAddr response ctrl0 bl0) s

/-- The members that the constructor sets and no member function changes. -/
structure Wired (s : State) : Prop where
  width : s._width = 16
  height : s._height = 2
  registerSelectPin : s._registerSelectPin = 0x01
  enablePin : s._enablePin = 0x04
  backlightPin : s._backlightPin = 0x08
  dataPin : s._dataPin = [0x10, 0x20, 0x40, 0x80]

/-! ## The wire format, as the specification words it -/

/-- One transport write of `value` to the device at `addr`: the transmission
with its two guard delays. -/
def specTransfer (addr value : Nat) : List Event :=
  [.beginTransmission addr, .wireWrite value, .delayMicroseconds 2,
   .endTransmission, .delayMicroseconds 2]

/-- A nibble pulse of `n`: the byte carrying `n` in bits 4..7, the
register-select bit `rs` (0 or 0x01) and the backlight bit `bl` (0 or 0x08),
written once with the enable bit 0x04 set and once with it clear. -/
def specNibblePulse (addr rs bl n : Nat) : List Event :=
  specTransfer addr (n <<< 4 ||| rs ||| bl ||| 0x04) ++
  specTransfer addr (n <<< 4 ||| rs ||| bl)

/-- A byte `b` on the wire: the pulse of its high nibble, then the pulse of its
low nibble. -/
def specByte (addr rs bl b : Nat) : List Event :=
  specNibblePulse addr rs bl (b >>> 4) ++ specNibblePulse addr rs bl (b &&& 0xF)

/-- The number of set bits among the low eight bits. -/
def popcount (x : Nat) : Nat :=
  ((List.range 8).filter (fun i => x.testBit i)).length

/-! ## Basic facts about the transport layer -/

theorem writeI2C_eq (s : State) (v : Nat) :
    writeI2C s v =
      { s with trace := s.trace ++ (if s._isReady ≠ 0 then specTransfer s._i2cAddr v else []) } := by
  unfold writeI2C
  split <;> simp [emit, specTransfer]

theorem writes_append (xs ys : List Event) : writes (xs ++ ys) = writes xs ++ writes ys := by
  induction xs with
  | nil => rfl
  | cons e es ih => cases e <;> simp [writes, ih]

theorem writes_specTransfer (addr v : Nat) : writes (specTransfer addr v) = [v] := rfl

set_option maxRecDepth 1000000 in
theorem mapPinsLoop_byte :
    ∀ v, v < 256 → mapPinsLoop [0x10, 0x20, 0x40, 0x80] 4 0 v 0 = (v % 16) <<< 4 := by
  decide

set_option maxRecDepth 1000000 in
theorem nibble_bytes :
    ∀ n, n < 16 → ∀ rs, rs < 2 → ∀ k, k < 2 →
      u8 (u8 (n <<< 4 ||| rs ||| 8 * k) ||| 4) = n <<< 4 ||| rs ||| 8 * k ||| 4 ∧
      u8 (u8 (n <<< 4 ||| rs ||| 8 * k) &&& compl8 4) = n <<< 4 ||| rs ||| 8 * k := by
  decide

theorem writeNibble_ready (s : State) (hw : Wired s) (hr : s._isReady ≠ 0)
    (hb : s._backlightStatus = 0 ∨ s._backlightStatus = 8) (v : Nat) (hv : v < 256) :
    writeCmdNibble s v =
        { s with trace := s.trace ++ specNibblePulse s._i2cAddr 0 s._backlightStatus (v % 16) } ∧
    writeDataNibble s v =
        { s with trace := s.trace ++ specNibblePulse s._i2cAddr 1 s._backlightStatus (v % 16) } := by
  have hn : v % 16 < 16 := Nat.mod_lt _ (by decide)
  have c0 := nibble_bytes (v % 16) hn 0 (by decide) 0 (by decide)
  have c1 := nibble_bytes (v % 16) hn 0 (by decide) 1 (by decide)
  have d0 := nibble_bytes (v % 16) hn 1 (by decide) 0 (by decide)
  have d1 := nibble_bytes (v % 16) hn 1 (by decide) 1 (by decide)
  simp only [Nat.mul_zero, Nat.mul_one, Nat.or_zero] at c0 c1 d0 d1
  unfold writeCmdNibble writeDataNibble mapPins
  simp only [writeI2C_eq, hw.dataPin, hw.enablePin, hw.registerSelectPin, mapPinsLoop_byte v hv,
    specNibblePulse, Nat.or_zero]
  rcases hb with hb | hb <;>
    simp [hb, hr, c0, c1, d0, d1, List.append_assoc]

theorem u8_lt (x : Nat) : u8 x < 256 := Nat.mod_lt _ (by decide)

theorem nibbles_of_byte (b : Nat) :
    u8 (b >>> 4) % 16 = u8 b >>> 4 ∧ u8 (b &&& 0xF) % 16 = u8 b &&& 0xF := by
  have h1 : b &&& 0xF = b % 16 := Nat.and_pow_two_sub_one_eq_mod b 4
  have h2 : u8 b &&& 0xF = u8 b % 16 := Nat.and_pow_two_sub_one_eq_mod (u8 b) 4
  rw [h1, h2]
  simp only [u8, Nat.shiftRight_eq_div_pow]
  omega

theorem wired_iff (s : State) :
    Wired s ↔
      s._width = 16 ∧ s._height = 2 ∧ s._registerSelectPin = 0x01 ∧ s._enablePin = 0x04 ∧
        s._backlightPin = 0x08 ∧ s._dataPin = [0x10, 0x20, 0x40, 0x80] :=
  ⟨fun h => ⟨h.width, h.height, h.registerSelectPin, h.enablePin, h.backlightPin, h.dataPin⟩,
   fun h => ⟨h.1, h.2.1, h.2.2.1, h.2.2.2.1, h.2.2.2.2.1, h.2.2.2.2.2⟩⟩

theorem writeNibble_ready_at (s : State) (hw : Wired s) (hr : s._isReady ≠ 0)
    (hb : s._backlightStatus = 0 ∨ s._backlightStatus = 8) (tr : List Event) (v : Nat)
    (hv : v < 256) :
    writeCmdNibble { s with trace := tr } v =
        { s with trace := tr ++ specNibblePulse s._i2cAddr 0 s._backlightStatus (v % 16) } ∧
    writeDataNibble { s with trace := tr } v =
        { s with trace := tr ++ specNibblePulse s._i2cAddr 1 s._backlightStatus (v % 16) } :=
  writeNibble_ready { s with trace := tr } ⟨hw.1, hw.2, hw.3, hw.4, hw.5, hw.6⟩ hr hb v hv

theorem sendCmdNibble_ready (s : State) (hw : Wired s) (hr : s._isReady ≠ 0)
    (hb : s._backlightStatus = 0 ∨ s._backlightStatus = 8) (v : Nat) :
    sendCmdNibble s v =
      { s with trace := s.trace ++ specNibblePulse s._i2cAddr 0 s._backlightStatus (v % 16) } := by
  unfold sendCmdNibble
  rw [(writeNibble_ready s hw hr hb _ (u8_lt _)).1]
  have h1 : v &&& 0xF = v % 16 := Nat.and_pow_two_sub_one_eq_mod v 4
  have h2 : u8 (v &&& 0xF) % 16 = v % 16 := by rw [h1]; simp only [u8]; omega
  rw [h2]

theorem sendCmd_ready (s : State) (hw : Wired s) (hr : s._isReady ≠ 0)
    (hb : s._backlightStatus = 0 ∨ s._backlightStatus = 8) (v : Nat) :
    sendCmd s v =
      { s with trace := s.trace ++ specByte s._i2cAddr 0 s._backlightStatus (u8 v) } := by
  unfold sendCmd
  simp only []
  rw [(writeNibble_ready s hw hr hb _ (u8_lt _)).1]
  rw [(writeNibble_ready_at s hw hr hb _ _ (u8_lt _)).1]
  simp only [(nibbles_of_byte v).1, (nibbles_of_byte v).2, specByte, List.append_assoc]

theorem printChar_ready (s : State) (hw : Wired s) (hr : s._isReady ≠ 0)
    (hb : s._backlightStatus = 0 ∨ s._backlightStatus = 8) (v : Nat) :
    printChar s v =
      { s with trace := s.trace ++ specByte s._i2cAddr 1 s._backlightStatus (u8 v) } := by
  unfold printChar
  simp only []
  rw [(writeNibble_ready s hw hr hb _ (u8_lt _)).2]
  rw [(writeNibble_ready_at s hw hr hb _ _ (u8_lt _)).2]
  simp only [(nibbles_of_byte v).1, (nibbles_of_byte v).2, specByte, List.append_assoc]

theorem construct_ready (a r c b : Nat) (hr : r ≠ 0) :
    LCD_I2C a r c b =
      { _isReady := r, _width := 16, _height := 2, _i2cAddr := a,
        _ctrlFlags := 0x04, _backlightStatus := 0x08,
        _enablePin := 0x04, _registerSelectPin := 0x01, _backlightPin := 0x08,
        _dataPin := [0x10, 0x20, 0x40, 0x80],
        trace :=
          [.wireBegin, .requestFrom a 1, .wireRead] ++ specTransfer a 0x00 ++
          [.delay 150] ++
          specNibblePulse a 0 0 0x3 ++ [.delayMicroseconds 4200] ++
          specNibblePulse a 0 0 0x3 ++ [.delayMicroseconds 110] ++
          specNibblePulse a 0 0 0x3 ++ [.delayMicroseconds 110] ++
          specNibblePulse a 0 0 0x2 ++
          specByte a 0 0 0x28 ++
          specByte a 0 0 0x08 ++
          specByte a 0 0 0x01 ++ [.delay 2] ++
          specByte a 0 0 0x06 ++
          specByte a 0 0x08 0x08 ++
          specByte a 0 0x08 0x0C } := by
  simp [LCD_I2C, initHD44780, initI2C, clear, displayOn, displayOff, backlightOn, emit,
    writeI2C_eq, hr, sendCmdNibble_ready, sendCmd_ready, wired_iff, u8, compl8, MODE_8BIT,
    MODE_4BIT, CMD_FUNC, FUNC_8BIT, FUNC_2LINES, FUNC_4BIT, FUNC_5x8, CMD_CTRL, CMD_CLEAR,
    CLEAR_WAIT_MS, CMD_EM, EM_INCREMENT, EM_DONT_SHIFT_DISPLAY, CTRL_DISPLAY_ON,
    CTRL_CURSOR_OFF, CTRL_BLINK_OFF]

theorem writes_specByte (a rs bl b : Nat) :
    writes (specByte a rs bl b) =
      [(b >>> 4) <<< 4 ||| rs ||| bl ||| 0x04, (b >>> 4) <<< 4 ||| rs ||| bl,
       (b &&& 0xF) <<< 4 ||| rs ||| bl ||| 0x04, (b &&& 0xF) <<< 4 ||| rs ||| bl] := rfl

theorem writes_specNibblePulse (a rs bl n : Nat) :
    writes (specNibblePulse a rs bl n) = [n <<< 4 ||| rs ||| bl ||| 0x04, n <<< 4 ||| rs ||| bl] :=
  rfl

/-! ## A failed probe -/

theorem construct_idle (a c b : Nat) :
    LCD_I2C a 0 c b =
      { _isReady := 0, _width := 16, _height := 2, _i2cAddr := a,
        _ctrlFlags := c, _backlightStatus := b,
        _enablePin := 0x04, _registerSelectPin := 0x01, _backlightPin := 0x08,
        _dataPin := [0x10, 0x20, 0x40, 0x80],
        trace := [.wireBegin, .requestFrom a 1, .wireRead] } := by
  simp [LCD_I2C, initHD44780, initI2C, emit, u8]

theorem writeI2C_idle (s : State) (h : s._isReady = 0) (v : Nat) : writeI2C s v = s := by
  simp [writeI2C, h]

theorem sendCmd_idle (s : State) (h : s._isReady = 0) (v : Nat) : sendCmd s v = s := by
  simp [sendCmd, writeCmdNibble, writeI2C_idle, h]

theorem printChar_idle (s : State) (h : s._isReady = 0) (v : Nat) : printChar s v = s := by
  simp [printChar, writeDataNibble, writeI2C_idle, h]

theorem printLoop_idle (msg : List Nat) (fuel : Nat) :
    ∀ (i : Nat) (s t : State), s._isReady = 0 → printLoop msg fuel i s = some t → t = s := by
  induction fuel with
  | zero => intro i s t _ h; simp [printLoop] at h
  | succ n ih =>
    intro i s t hs h
    unfold printLoop at h
    split at h
    · rw [printChar_idle s hs] at h
      exact ih _ s t hs h
    · exact (Option.some.inj h).symm

theorem step_idle {s t : State} (h : Step s t) (hs : s._isReady = 0) :
    t._isReady = 0 ∧ writes t.trace = writes s.trace := by
  cases h with
  | clear => simp [clear, sendCmd_idle, hs, emit, writes_append, writes]
  | setCursor x y => simp [setCursor, sendCmd_idle, hs]
  | backlightOn => simp [backlightOn, sendCmd_idle, hs]
  | backlightOff => simp [backlightOff, sendCmd_idle, hs]
  | displayOn => simp [displayOn, sendCmd_idle, hs]
  | displayOff => simp [displayOff, sendCmd_idle, hs]
  | print _ msg fuel hp =>
    have := printLoop_idle msg fuel 0 s t hs hp
    subst this
    exact ⟨hs, rfl⟩
  | printChar v => simp [printChar_idle, hs]

/-! ## The public operations on a ready object -/

theorem u8_u8 (x : Nat) : u8 (u8 x) = u8 x := by
  simp [u8]

theorem sendCmd_ready_at (s : State) (hw : Wired s) (hr : s._isReady ≠ 0) (c bl : Nat)
    (hb : bl = 0 ∨ bl = 8) (tr : List Event) (v : Nat) :
    sendCmd { s with _ctrlFlags := c, _backlightStatus := bl, trace := tr } v =
      { s with
        _ctrlFlags := c
        _backlightStatus := bl
        trace := tr ++ specByte s._i2cAddr 0 bl (u8 v) } :=
  sendCmd_ready { s with _ctrlFlags := c, _backlightStatus := bl, trace := tr }
    ⟨hw.1, hw.2, hw.3, hw.4, hw.5, hw.6⟩ hr hb v

theorem clear_ready (s : State) (hw : Wired s) (hr : s._isReady ≠ 0)
    (hb : s._backlightStatus = 0 ∨ s._backlightStatus = 8) :
    clear s =
      { s with trace := s.trace ++ specByte s._i2cAddr 0 s._backlightStatus 0x01 ++ [.delay 2] } := by
  simp [clear, sendCmd_ready s hw hr hb, emit, u8]

theorem setCursor_ready (s : State) (hw : Wired s) (hr : s._isReady ≠ 0)
    (hb : s._backlightStatus = 0 ∨ s._backlightStatus = 8) (x y : Nat) :
    setCursor s x y =
      { s with
        trace := s.trace ++ (specByte s._i2cAddr 0 s._backlightStatus
          (u8 (0x80 ||| ((if x ≥ 16 then 15 else x) + (if y ≥ 2 then 1 else y) * 0x40)))) } := by
  simp [setCursor, sendCmd_ready s hw hr hb, hw.width, hw.height, u8]

theorem backlightOn_ready (s : State) (hw : Wired s) (hr : s._isReady ≠ 0) :
    backlightOn s =
      { s with
        _backlightStatus := 0x08
        trace := s.trace ++ specByte s._i2cAddr 0 0x08 (u8 (0x08 ||| s._ctrlFlags)) } := by
  unfold backlightOn
  simp only []
  rw [sendCmd_ready_at s hw hr _ _ (Or.inr hw.backlightPin)]
  simp only [hw.backlightPin, u8_u8, CMD_CTRL]

theorem backlightOff_ready (s : State) (hw : Wired s) (hr : s._isReady ≠ 0) :
    backlightOff s =
      { s with
        _backlightStatus := 0
        trace := s.trace ++ specByte s._i2cAddr 0 0 (u8 (0x08 ||| s._ctrlFlags)) } := by
  unfold backlightOff
  simp only []
  rw [sendCmd_ready_at s hw hr _ _ (Or.inl rfl)]
  simp only [u8_u8, CMD_CTRL]

theorem displayOn_ready (s : State) (hw : Wired s) (hr : s._isReady ≠ 0)
    (hb : s._backlightStatus = 0 ∨ s._backlightStatus = 8) :
    displayOn s =
      { s with
        _ctrlFlags := u8 (s._ctrlFlags ||| 0x04)
        trace := s.trace ++
          specByte s._i2cAddr 0 s._backlightStatus (u8 (0x08 ||| u8 (s._ctrlFlags ||| 0x04))) } := by
  unfold displayOn
  simp only []
  rw [sendCmd_ready_at s hw hr _ _ hb]
  simp only [u8_u8, CMD_CTRL, CTRL_DISPLAY_ON]

theorem displayOff_ready (s : State) (hw : Wired s) (hr : s._isReady ≠ 0)
    (hb : s._backlightStatus = 0 ∨ s._backlightStatus = 8) :
    displayOff s =
      { s with
        _ctrlFlags := u8 (s._ctrlFlags &&& 0xFB)
        trace := s.trace ++
          specByte s._i2cAddr 0 s._backlightStatus (u8 (0x08 ||| u8 (s._ctrlFlags &&& 0xFB))) } := by
  have h4 : compl8 CTRL_DISPLAY_ON = 0xFB := by decide
  unfold displayOff
  simp only [h4]
  rw [sendCmd_ready_at s hw hr _ _ hb]
  simp only [u8_u8, CMD_CTRL]

theorem printChar_ready_at (s : State) (hw : Wired s) (hr : s._isReady ≠ 0)
    (hb : s._backlightStatus = 0 ∨ s._backlightStatus = 8) (tr : List Event) (v : Nat) :
    printChar { s with trace := tr } v =
      { s with trace := tr ++ specByte s._i2cAddr 1 s._backlightStatus (u8 v) } :=
  printChar_ready { s with trace := tr } ⟨hw.1, hw.2, hw.3, hw.4, hw.5, hw.6⟩ hr hb v

theorem printLoop_fold (msg : List Nat) (fuel : Nat) :
    ∀ (i : Nat) (s t : State), printLoop msg fuel i s = some t →
      ∃ cs : List Nat, t = cs.foldl printChar s := by
  induction fuel with
  | zero => intro i s t h; simp [printLoop] at h
  | succ n ih =>
    intro i s t h
    unfold printLoop at h
    split at h
    · obtain ⟨cs, hcs⟩ := ih _ _ t h
      exact ⟨u8 (msg.getD i 0) :: cs, hcs⟩
    · exact ⟨[], (Option.some.inj h).symm⟩

theorem foldl_printChar_ready (s : State) (hw : Wired s) (hr : s._isReady ≠ 0)
    (hb : s._backlightStatus = 0 ∨ s._backlightStatus = 8) (cs : List Nat) :
    ∀ tr : List Event, cs.foldl printChar { s with trace := tr } =
      { s with
        trace := tr ++ cs.flatMap (fun c => specByte s._i2cAddr 1 s._backlightStatus (u8 c)) } := by
  induction cs with
  | nil => intro tr; simp
  | cons c cs ih =>
    intro tr
    rw [List.foldl_cons, printChar_ready_at s hw hr hb, ih]
    simp [List.append_assoc]

/-- Every public call keeps the wiring, the probe result and the address, and on
a ready object keeps the two cached flag bytes within their flag bits. -/
theorem step_inv {s t : State} (h : Step s t) (hw : Wired s)
    (hi : s._isReady ≠ 0 →
      (s._backlightStatus = 0 ∨ s._backlightStatus = 8) ∧ (s._ctrlFlags = 0 ∨ s._ctrlFlags = 4)) :
    t._isReady = s._isReady ∧ t._i2cAddr = s._i2cAddr ∧ Wired t ∧
      (t._isReady ≠ 0 →
        (t._backlightStatus = 0 ∨ t._backlightStatus = 8) ∧ (t._ctrlFlags = 0 ∨ t._ctrlFlags = 4)) := by
  have hw' := (wired_iff s).1 hw
  by_cases hr : s._isReady = 0
  · cases h with
    | clear => simp [clear, sendCmd_idle, hr, emit, wired_iff, hw']
    | setCursor x y => simp [setCursor, sendCmd_idle, hr, wired_iff, hw']
    | backlightOn => simp [backlightOn, sendCmd_idle, hr, wired_iff, hw']
    | backlightOff => simp [backlightOff, sendCmd_idle, hr, wired_iff, hw']
    | displayOn => simp [displayOn, sendCmd_idle, hr, wired_iff, hw']
    | displayOff => simp [displayOff, sendCmd_idle, hr, wired_iff, hw']
    | print _ msg fuel hp =>
      have := printLoop_idle msg fuel 0 s t hr hp
      subst this
      exact ⟨rfl, rfl, hw, hi⟩
    | printChar v => simp [printChar_idle, hr, wired_iff, hw']
  · obtain ⟨hb, hc⟩ := hi hr
    have c4 : ∀ c, c = 0 ∨ c = 4 → u8 (c ||| 4) = 4 ∧ u8 (c &&& 0xFB) = 0 := by
      intro c h; rcases h with h | h <;> subst h <;> decide
    cases h with
    | clear => rw [clear_ready s hw hr hb]; simp [wired_iff, hw', hb, hc]
    | setCursor x y => rw [setCursor_ready s hw hr hb]; simp [wired_iff, hw', hb, hc]
    | backlightOn => rw [backlightOn_ready s hw hr]; simp [wired_iff, hw', hc]
    | backlightOff => rw [backlightOff_ready s hw hr]; simp [wired_iff, hw', hc]
    | displayOn => rw [displayOn_ready s hw hr hb]; simp [wired_iff, hw', hb, (c4 _ hc).1]
    | displayOff => rw [displayOff_ready s hw hr hb]; simp [wired_iff, hw', hb, (c4 _ hc).2]
    | print _ msg fuel hp =>
      obtain ⟨cs, hcs⟩ := printLoop_fold msg fuel 0 s t hp
      have := foldl_printChar_ready s hw hr hb cs s.trace
      rw [hcs, this]; simp [wired_iff, hw', hb, hc]
    | printChar v => rw [printChar_ready s hw hr hb]; simp [wired_iff, hw', hb, hc]

theorem run_inv {s t : State} (h : Relation.ReflTransGen Step s t) (hw : Wired s)
    (hi : s._isReady ≠ 0 →
      (s._backlightStatus = 0 ∨ s._backlightStatus = 8) ∧ (s._ctrlFlags = 0 ∨ s._ctrlFlags = 4)) :
    t._isReady = s._isReady ∧ t._i2cAddr = s._i2cAddr ∧ Wired t ∧
      (t._isReady ≠ 0 →
        (t._backlightStatus = 0 ∨ t._backlightStatus = 8) ∧ (t._ctrlFlags = 0 ∨ t._ctrlFlags = 4)) := by
  induction h with
  | refl => exact ⟨rfl, rfl, hw, hi⟩
  | tail _ hst ih =>
    obtain ⟨h1, h2, h3, h4⟩ := ih
    obtain ⟨k1, k2, k3, k4⟩ := step_inv hst h3 h4
    exact ⟨k1.trans h1, k2.trans h2, k3, k4⟩

theorem construct_inv (a r c b : Nat) :
    Wired (LCD_I2C a r c b) ∧ (LCD_I2C a r c b)._isReady = r ∧ (LCD_I2C a r c b)._i2cAddr = a ∧
      ((LCD_I2C a r c b)._isReady ≠ 0 →
        ((LCD_I2C a r c b)._backlightStatus = 0 ∨ (LCD_I2C a r c b)._backlightStatus = 8) ∧
        ((LCD_I2C a r c b)._ctrlFlags = 0 ∨ (LCD_I2C a r c b)._ctrlFlags = 4)) := by
  by_cases hr : r = 0
  · subst hr
    rw [construct_idle]
    simp [wired_iff]
  · rw [construct_ready a r c b hr]
    simp [wired_iff]

theorem reachable_inv {s : State} (h : Reachable s) :
    Wired s ∧
      (s._isReady ≠ 0 →
        (s._backlightStatus = 0 ∨ s._backlightStatus = 8) ∧ (s._ctrlFlags = 0 ∨ s._ctrlFlags = 4)) := by
  obtain ⟨a, r, c, b, hrun⟩ := h
  obtain ⟨hw, _, _, hi⟩ := construct_inv a r c b
  obtain ⟨_, _, h3, h4⟩ := run_inv hrun hw hi
  exact ⟨h3, h4⟩

theorem reachable_construct (a r c b : Nat) : Reachable (LCD_I2C a r c b) :=
  ⟨a, r, c, b, Relation.ReflTransGen.refl⟩

set_option maxRecDepth 1000000 in
theorem pulse_bits :
    ∀ n, n < 16 → ∀ rs, rs < 2 → ∀ k, k < 2 →
      (n <<< 4 ||| rs ||| 8 * k ||| 4) >>> 4 = n ∧
      (n <<< 4 ||| rs ||| 8 * k ||| 4) &&& 4 = 4 ∧
      (n <<< 4 ||| rs ||| 8 * k) &&& 4 = 0 ∧
      (n <<< 4 ||| rs ||| 8 * k) &&& 0xFB = (n <<< 4 ||| rs ||| 8 * k ||| 4) &&& 0xFB ∧
      (n <<< 4 ||| rs ||| 8 * k ||| 4) &&& 1 = rs ∧
      (n <<< 4 ||| rs ||| 8 * k) &&& 1 = rs ∧
      (n <<< 4 ||| rs ||| 8 * k ||| 4) &&& 8 = 8 * k ∧
      (n <<< 4 ||| rs ||| 8 * k) &&& 8 = 8 * k := by
  decide

theorem nibbles_lt (b : Nat) (hb : b < 256) : b >>> 4 < 16 ∧ b &&& 0xF < 16 := by
  have h1 : b &&& 0xF = b % 16 := Nat.and_pow_two_sub_one_eq_mod b 4
  rw [h1, Nat.shiftRight_eq_div_pow]
  omega

theorem byte_bits (b : Nat) (hb : b < 256) (rs : Nat) (hrs : rs < 2) (k : Nat) (hk : k < 2) :
    ((b >>> 4) <<< 4 ||| rs ||| 8 * k ||| 4) >>> 4 = b >>> 4 ∧
    ((b &&& 0xF) <<< 4 ||| rs ||| 8 * k ||| 4) >>> 4 = b &&& 0xF ∧
    ((b >>> 4) <<< 4 ||| rs ||| 8 * k ||| 4) &&& 4 = 4 ∧
    ((b >>> 4) <<< 4 ||| rs ||| 8 * k) &&& 4 = 0 ∧
    ((b >>> 4) <<< 4 ||| rs ||| 8 * k) &&& 0xFB = ((b >>> 4) <<< 4 ||| rs ||| 8 * k ||| 4) &&& 0xFB ∧
    ((b &&& 0xF) <<< 4 ||| rs ||| 8 * k ||| 4) &&& 4 = 4 ∧
    ((b &&& 0xF) <<< 4 ||| rs ||| 8 * k) &&& 4 = 0 ∧
    ((b &&& 0xF) <<< 4 ||| rs ||| 8 * k) &&& 0xFB =
      ((b &&& 0xF) <<< 4 ||| rs ||| 8 * k ||| 4) &&& 0xFB := by
  obtain ⟨h1, h2⟩ := nibbles_lt b hb
  obtain ⟨a1, a2, a3, a4, -⟩ := pulse_bits (b >>> 4) h1 rs hrs k hk
  obtain ⟨b1, b2, b3, b4, -⟩ := pulse_bits (b &&& 0xF) h2 rs hrs k hk
  exact ⟨a1, b1, a2, a3, a4, b2, b3, b4⟩

theorem construct_writes (a r c b : Nat) (h : r ≠ 0) :
    writes (LCD_I2C a r c b).trace =
        [0x00,
         0x34, 0x30, 0x34, 0x30, 0x34, 0x30,
         0x24, 0x20,
         0x24, 0x20, 0x84, 0x80,
         0x04, 0x00, 0x84, 0x80,
         0x04, 0x00, 0x14, 0x10,
         0x04, 0x00, 0x64, 0x60,
         0x0C, 0x08, 0x8C, 0x88,
         0x0C, 0x08, 0xCC, 0xC8] := by
  have ht := congrArg State.trace (construct_ready a r c b h)
  simp only [] at ht
  rw [ht]
  simp only [writes_append, writes_specByte, writes_specNibblePulse, writes_specTransfer]
  simp only [writes, List.cons_append, List.nil_append, List.append_nil]
  decide

/-- C1: constructing the driver with a transport that answers the probe makes,
in this order, the probe and the write of 0x00, the 150 ms power-on wait, three
command-nibble pulses of 0x3 followed by waits of 4200 us, 110 us and 110 us,
one command-nibble pulse of 0x2, the command bytes 0x28, 0x08, 0x01 (followed by
a 2 ms wait) and 0x06 with the backlight bit clear, then the command bytes 0x08
and 0x0C with the backlight bit set.  A nibble pulse of n is the pair of writes
(n in bits 4..7 with the enable bit 0x04 set, the same byte with it clear); the
second part lists the 33 written bytes. -/
theorem construct_init_sequence (i2cAddr response ctrl0 bl0 : Nat) (h : response ≠ 0) :
    (LCD_I2C i2cAddr response ctrl0 bl0).trace =
        [.wireBegin, .requestFrom i2cAddr 1, .wireRead] ++ specTransfer i2cAddr 0x00 ++
        [.delay 150] ++
        specNibblePulse i2cAddr 0 0 0x3 ++ [.delayMicroseconds 4200] ++
        specNibblePulse i2cAddr 0 0 0x3 ++ [.delayMicroseconds 110] ++
        specNibblePulse i2cAddr 0 0 0x3 ++ [.delayMicroseconds 110] ++
        specNibblePulse i2cAddr 0 0 0x2 ++
        specByte i2cAddr 0 0 0x28 ++
        specByte i2cAddr 0 0 0x08 ++
        specByte i2cAddr 0 0 0x01 ++ [.delay 2] ++
        specByte i2cAddr 0 0 0x06 ++
        specByte i2cAddr 0 0x08 0x08 ++
        specByte i2cAddr 0 0x08 0x0C ∧
    writes (LCD_I2C i2cAddr response ctrl0 bl0).trace =
        [0x00,
         0x34, 0x30, 0x34, 0x30, 0x34, 0x30,
         0x24, 0x20,
         0x24, 0x20, 0x84, 0x80,
         0x04, 0x00, 0x84, 0x80,
         0x04, 0x00, 0x14, 0x10,
         0x04, 0x00, 0x64, 0x60,
         0x0C, 0x08, 0x8C, 0x88,
         0x0C, 0x08, 0xCC, 0xC8] := by
  have ht := congrArg State.trace (construct_ready i2cAddr response ctrl0 bl0 h)
  exact ⟨ht, construct_writes i2cAddr response ctrl0 bl0 h⟩

theorem construct_init_sequence_witness :
    writes (LCD_I2C 0x27 1 0 0).trace =
        [0x00,
         0x34, 0x30, 0x34, 0x30, 0x34, 0x30,
         0x24, 0x20,
         0x24, 0x20, 0x84, 0x80,
         0x04, 0x00, 0x84, 0x80,
         0x04, 0x00, 0x14, 0x10,
         0x04, 0x00, 0x64, 0x60,
         0x0C, 0x08, 0x8C, 0x88,
         0x0C, 0x08, 0xCC, 0xC8] :=
  (construct_init_sequence 0x27 1 0 0 (by decide)).2

/-- C2: when the probe of the constructor fails, the object is never ready and
no byte is ever written to the transport: after construction and after any
finite sequence of public calls, with any arguments, `_isReady` is 0 and the
whole trace since the start of construction holds no transport write. -/
theorem failed_probe_no_writes (i2cAddr ctrl0 bl0 : Nat) (s : State)
    (h : Relation.ReflTransGen Step (LCD_I2C i2cAddr 0 ctrl0 bl0) s) :
    s._isReady = 0 ∧ writes s.trace = [] := by
  induction h with
  | refl => rw [construct_idle]; exact ⟨rfl, rfl⟩
  | tail _ hst ih =>
    obtain ⟨h1, h2⟩ := step_idle hst ih.1
    exact ⟨h1, h2.trans ih.2⟩

theorem failed_probe_no_writes_witness :
    (printChar (setCursor (clear (LCD_I2C 0x27 0 0 0)) 3 1) 0x41)._isReady = 0 ∧
      writes (printChar (setCursor (clear (LCD_I2C 0x27 0 0 0)) 3 1) 0x41).trace = [] :=
  failed_probe_no_writes 0x27 0 0 _
    (((Relation.ReflTransGen.refl.tail (Step.clear _)).tail (Step.setCursor _ 3 1)).tail
      (Step.printChar _ 0x41))

/-- C3: on a ready object, `sendCmd b` and `printChar b` each add exactly four
transport writes.  The first two carry the nibble `b >> 4` in bits 4..7, the
last two the nibble `b & 0xF`; in each pair the first write has the enable bit
0x04 set, the second has it clear, and the two agree on the other seven bits. -/
theorem byte_is_two_nibble_pulses (s : State) (hs : Reachable s) (hr : s._isReady ≠ 0)
    (b : Nat) (hb : b < 256) :
    (∃ w0 w1 w2 w3, writes (sendCmd s b).trace = writes s.trace ++ [w0, w1, w2, w3] ∧
      w0 >>> 4 = b >>> 4 ∧ w2 >>> 4 = b &&& 0xF ∧
      w0 &&& 0x04 = 0x04 ∧ w1 &&& 0x04 = 0 ∧ w1 &&& 0xFB = w0 &&& 0xFB ∧
      w2 &&& 0x04 = 0x04 ∧ w3 &&& 0x04 = 0 ∧ w3 &&& 0xFB = w2 &&& 0xFB) ∧
    (∃ w0 w1 w2 w3, writes (printChar s b).trace = writes s.trace ++ [w0, w1, w2, w3] ∧
      w0 >>> 4 = b >>> 4 ∧ w2 >>> 4 = b &&& 0xF ∧
      w0 &&& 0x04 = 0x04 ∧ w1 &&& 0x04 = 0 ∧ w1 &&& 0xFB = w0 &&& 0xFB ∧
      w2 &&& 0x04 = 0x04 ∧ w3 &&& 0x04 = 0 ∧ w3 &&& 0xFB = w2 &&& 0xFB) := by
  obtain ⟨hw, hi⟩ := reachable_inv hs
  obtain ⟨hbl, _⟩ := hi hr
  have hu : u8 b = b := Nat.mod_eq_of_lt hb
  rw [sendCmd_ready s hw hr hbl, printChar_ready s hw hr hbl, hu]
  simp only [writes_append, writes_specByte]
  rcases hbl with h0 | h8
  · have c := byte_bits b hb 0 (by decide) 0 (by decide)
    have d := byte_bits b hb 1 (by decide) 0 (by decide)
    rw [h0]
    exact ⟨⟨_, _, _, _, rfl, c⟩, ⟨_, _, _, _, rfl, d⟩⟩
  · have c := byte_bits b hb 0 (by decide) 1 (by decide)
    have d := byte_bits b hb 1 (by decide) 1 (by decide)
    rw [h8]
    exact ⟨⟨_, _, _, _, rfl, c⟩, ⟨_, _, _, _, rfl, d⟩⟩

theorem construct_isReady (a r c b : Nat) : (LCD_I2C a r c b)._isReady = r :=
  (construct_inv a r c b).2.1

theorem byte_is_two_nibble_pulses_witness :
    ∃ w0 w1 w2 w3,
      writes (sendCmd (LCD_I2C 0x27 1 0 0) 0xA5).trace =
        writes (LCD_I2C 0x27 1 0 0).trace ++ [w0, w1, w2, w3] ∧
      w0 >>> 4 = 0xA5 >>> 4 ∧ w2 >>> 4 = 0xA5 &&& 0xF ∧
      w0 &&& 0x04 = 0x04 ∧ w1 &&& 0x04 = 0 ∧ w1 &&& 0xFB = w0 &&& 0xFB ∧
      w2 &&& 0x04 = 0x04 ∧ w3 &&& 0x04 = 0 ∧ w3 &&& 0xFB = w2 &&& 0xFB :=
  (byte_is_two_nibble_pulses (LCD_I2C 0x27 1 0 0) (reachable_construct _ _ _ _)
    (by rw [construct_isReady]; decide) 0xA5 (by decide)).1

set_option maxRecDepth 1000000 in
theorem mapPinsLoop_nibble :
    ∀ v, v < 16 →
      popcount (mapPinsLoop [0x10, 0x20, 0x40, 0x80] 4 0 v 0) = popcount v ∧
      (∀ i, i < 4 →
        (mapPinsLoop [0x10, 0x20, 0x40, 0x80] 4 0 v 0 &&& [0x10, 0x20, 0x40, 0x80].getD i 0 ≠ 0 ↔
          v.testBit i = true)) ∧
      mapPinsLoop [0x10, 0x20, 0x40, 0x80] 4 0 v 0 &&& (0x10 ||| 0x20 ||| 0x40 ||| 0x80) =
        mapPinsLoop [0x10, 0x20, 0x40, 0x80] 4 0 v 0 ∧
      mapPinsLoop [0x10, 0x20, 0x40, 0x80] 4 0 v 0 &&& (0x01 ||| 0x04 ||| 0x08) = 0 ∧
      (∀ w, w < 16 →
        mapPinsLoop [0x10, 0x20, 0x40, 0x80] 4 0 v 0 = mapPinsLoop [0x10, 0x20, 0x40, 0x80] 4 0 w 0 →
          v = w) := by
  decide

/-- C4: with the pin assignment of the constructor (data pins 0x10, 0x20, 0x40,
0x80; register-select 0x01, enable 0x04, backlight 0x08), for every 4-bit value
`v` the byte `mapPins v` has exactly popcount(v) bits set, has the bit of data
pin `i` set exactly when bit `i` of `v` is set, has no bit outside the four data
pins, shares no bit with the three control pins, and differs from `mapPins w`
for every other 4-bit value `w`. -/
theorem mapPins_bijective (s : State) (hs : Reachable s) (v : Nat) (hv : v < 16) :
    s._dataPin = [0x10, 0x20, 0x40, 0x80] ∧
    s._registerSelectPin = 0x01 ∧ s._enablePin = 0x04 ∧ s._backlightPin = 0x08 ∧
    popcount (mapPins s v) = popcount v ∧
    (∀ i, i < 4 → (mapPins s v &&& s._dataPin.getD i 0 ≠ 0 ↔ v.testBit i = true)) ∧
    mapPins s v &&& (0x10 ||| 0x20 ||| 0x40 ||| 0x80) = mapPins s v ∧
    mapPins s v &&& (s._registerSelectPin ||| s._enablePin ||| s._backlightPin) = 0 ∧
    (∀ w, w < 16 → mapPins s v = mapPins s w → v = w) := by
  obtain ⟨hw, -⟩ := reachable_inv hs
  unfold mapPins
  rw [hw.dataPin, hw.registerSelectPin, hw.enablePin, hw.backlightPin]
  exact ⟨rfl, rfl, rfl, rfl, mapPinsLoop_nibble v hv⟩

theorem mapPins_bijective_witness :
    popcount (mapPins (LCD_I2C 0x27 1 0 0) 0xB) = popcount 0xB :=
  (mapPins_bijective (LCD_I2C 0x27 1 0 0) (reachable_construct _ _ _ _) 0xB
    (by decide)).2.2.2.2.1

/-- C5: `setCursor` clamps.  On every constructed object, a column `x` at or
beyond the width gives the same resulting object, trace included, as column
`width-1`, and a row `y` at or beyond the height the same as row `height-1`; so
`setCursor(16, 0)` is `setCursor(15, 0)` and `setCursor(0, 2)` is
`setCursor(0, 1)`. -/
theorem setCursor_clamps (s : State) (hs : Reachable s) (x y : Nat) :
    (x ≥ s._width → setCursor s x y = setCursor s (s._width - 1) y) ∧
    (y ≥ s._height → setCursor s x y = setCursor s x (s._height - 1)) ∧
    setCursor s 16 0 = setCursor s 15 0 ∧
    setCursor s 0 2 = setCursor s 0 1 := by
  obtain ⟨hw, -⟩ := reachable_inv hs
  have e1 : u8 (16 + 255) = 15 := by decide
  have e2 : u8 (2 + 255) = 1 := by decide
  unfold setCursor
  simp only [hw.width, hw.height, e1, e2]
  refine ⟨fun hx => ?_, fun hy => ?_, ?_, ?_⟩
  · simp [hx]
  · simp [hy]
  · simp
  · simp

theorem setCursor_clamps_witness :
    setCursor (LCD_I2C 0x27 1 0 0) 16 0 = setCursor (LCD_I2C 0x27 1 0 0) 15 0 :=
  (setCursor_clamps (LCD_I2C 0x27 1 0 0) (reachable_construct _ _ _ _) 0 0).2.2.1

set_option maxRecDepth 1000000 in
theorem ddram_byte :
    ∀ x, x < 16 → ∀ y, y < 2 →
      CMD_SET_DDRAM ||| (x + y * 0x40) = 0x80 + x + 0x40 * y ∧
      0x80 + x + 0x40 * y < 256 ∧
      x + y * 0x40 ≤ 0x4F ∧
      (x + y * 0x40) &&& CMD_SET_DDRAM = 0 := by
  decide

/-- C6: on every constructed object (16 columns, 2 rows), for all arguments
`x` and `y`, with `x' = min x (width-1)` and `y' = min y (height-1)`,
`setCursor x y` is one `sendCmd` of the byte `SET_DDRAM | (x' + y'*0x40)`.  This
byte equals `0x80 + x' + 0x40*y'`, is below 256 (nothing is truncated), and its
address part is at most 0x4F and has the 0x80 bit clear. -/
theorem setCursor_ddram_byte (s : State) (hs : Reachable s) (x y : Nat) :
    s._width = 16 ∧ s._height = 2 ∧
    setCursor s x y =
      sendCmd s (CMD_SET_DDRAM ||| (min x (s._width - 1) + min y (s._height - 1) * 0x40)) ∧
    CMD_SET_DDRAM ||| (min x (s._width - 1) + min y (s._height - 1) * 0x40) =
      0x80 + min x (s._width - 1) + 0x40 * min y (s._height - 1) ∧
    0x80 + min x (s._width - 1) + 0x40 * min y (s._height - 1) < 256 ∧
    min x (s._width - 1) + min y (s._height - 1) * 0x40 ≤ 0x4F ∧
    (min x (s._width - 1) + min y (s._height - 1) * 0x40) &&& CMD_SET_DDRAM = 0 := by
  obtain ⟨hw, -⟩ := reachable_inv hs
  have hx : min x (16 - 1) < 16 := by omega
  have hy : min y (2 - 1) < 2 := by omega
  obtain ⟨h1, h2, h3, h4⟩ := ddram_byte _ hx _ hy
  rw [hw.width, hw.height]
  refine ⟨rfl, rfl, ?_, h1, h2, h3, h4⟩
  have hx' : (if x ≥ 16 then u8 (16 + 255) else x) = min x (16 - 1) := by
    split
    · simp only [u8]; omega
    · omega
  have hy' : (if y ≥ 2 then u8 (2 + 255) else y) = min y (2 - 1) := by
    split
    · simp only [u8]; omega
    · omega
  unfold setCursor
  simp only [hw.width, hw.height, hx', hy']
  rw [h1]
  have : u8 (0x80 + min x (16 - 1) + 0x40 * min y (2 - 1)) =
      0x80 + min x (16 - 1) + 0x40 * min y (2 - 1) := Nat.mod_eq_of_lt h2
  rw [this]

theorem setCursor_ddram_byte_witness :
    setCursor (LCD_I2C 0x27 1 0 0) 200 3 =
      sendCmd (LCD_I2C 0x27 1 0 0)
        (CMD_SET_DDRAM |||
          (min 200 ((LCD_I2C 0x27 1 0 0)._width - 1) +
            min 3 ((LCD_I2C 0x27 1 0 0)._height - 1) * 0x40)) :=
  (setCursor_ddram_byte (LCD_I2C 0x27 1 0 0) (reachable_construct _ _ _ _) 200 3).2.2.1

theorem specByte_bits (a rs bl b : Nat) (hrs : rs < 2) (hbl : bl = 0 ∨ bl = 8) (hb : b < 256) :
    ∀ w ∈ writes (specByte a rs bl b), w &&& 0x01 = rs ∧ w &&& 0x08 = bl := by
  obtain ⟨h1, h2⟩ := nibbles_lt b hb
  have key : ∀ k, k < 2 → ∀ w ∈ writes (specByte a rs (8 * k) b),
      w &&& 0x01 = rs ∧ w &&& 0x08 = 8 * k := by
    intro k hk w hmem
    obtain ⟨-, -, -, -, a5, a6, a7, a8⟩ := pulse_bits (b >>> 4) h1 rs hrs k hk
    obtain ⟨-, -, -, -, b5, b6, b7, b8⟩ := pulse_bits (b &&& 0xF) h2 rs hrs k hk
    rw [writes_specByte] at hmem
    simp only [List.mem_cons, List.mem_singleton, List.not_mem_nil, or_false] at hmem
    rcases hmem with h | h | h | h <;> subst h
    · exact ⟨a5, a7⟩
    · exact ⟨a6, a8⟩
    · exact ⟨b5, b7⟩
    · exact ⟨b6, b8⟩
  rcases hbl with h | h <;> subst h
  · exact key 0 (by decide)
  · exact key 1 (by decide)

theorem writes_flatMap (cs : List Nat) (f : Nat → List Event) :
    writes (cs.flatMap f) = cs.flatMap (fun c => writes (f c)) := by
  induction cs with
  | nil => rfl
  | cons c cs ih => simp [writes_append, ih]

theorem writes_delay (n : Nat) : writes [Event.delay n] = [] := rfl

/-- The writes a public call adds on a ready object: each carries the cached
backlight flag of the resulting object in bit 0x08. -/
theorem step_writes {s t : State} (h : Step s t) (hw : Wired s) (hr : s._isReady ≠ 0)
    (hb : s._backlightStatus = 0 ∨ s._backlightStatus = 8) :
    ∃ ws, writes t.trace = writes s.trace ++ ws ∧ ∀ w ∈ ws, w &&& 0x08 = t._backlightStatus := by
  cases h with
  | clear =>
    rw [clear_ready s hw hr hb]
    refine ⟨_, by simp only [writes_append, writes_delay, List.append_nil]; rfl, ?_⟩
    exact fun w hmem => (specByte_bits _ 0 _ _ (by decide) hb (by decide) w hmem).2
  | setCursor x y =>
    rw [setCursor_ready s hw hr hb]
    refine ⟨_, by simp only [writes_append]; rfl, ?_⟩
    exact fun w hmem => (specByte_bits _ 0 _ _ (by decide) hb (u8_lt _) w hmem).2
  | backlightOn =>
    rw [backlightOn_ready s hw hr]
    refine ⟨_, by simp only [writes_append]; rfl, ?_⟩
    exact fun w hmem => (specByte_bits _ 0 _ _ (by decide) (Or.inr rfl) (u8_lt _) w hmem).2
  | backlightOff =>
    rw [backlightOff_ready s hw hr]
    refine ⟨_, by simp only [writes_append]; rfl, ?_⟩
    exact fun w hmem => (specByte_bits _ 0 _ _ (by decide) (Or.inl rfl) (u8_lt _) w hmem).2
  | displayOn =>
    rw [displayOn_ready s hw hr hb]
    refine ⟨_, by simp only [writes_append]; rfl, ?_⟩
    exact fun w hmem => (specByte_bits _ 0 _ _ (by decide) hb (u8_lt _) w hmem).2
  | displayOff =>
    rw [displayOff_ready s hw hr hb]
    refine ⟨_, by simp only [writes_append]; rfl, ?_⟩
    exact fun w hmem => (specByte_bits _ 0 _ _ (by decide) hb (u8_lt _) w hmem).2
  | print _ msg fuel hp =>
    obtain ⟨cs, hcs⟩ := printLoop_fold msg fuel 0 s t hp
    rw [hcs, foldl_printChar_ready s hw hr hb cs s.trace]
    refine ⟨_, by simp only [writes_append, writes_flatMap]; rfl, ?_⟩
    intro w hmem
    obtain ⟨c, -, hc⟩ := List.mem_flatMap.1 hmem
    exact (specByte_bits _ 1 _ _ (by decide) hb (u8_lt _) w hc).2
  | printChar v =>
    rw [printChar_ready s hw hr hb]
    refine ⟨_, by simp only [writes_append]; rfl, ?_⟩
    exact fun w hmem => (specByte_bits _ 1 _ _ (by decide) hb (u8_lt _) w hmem).2

/-- C7: on a ready object every byte that a public call writes to the transport
has the backlight bit 0x08 equal to the cached backlight flag, which is 0 or
0x08: the flag as the call leaves it, each call changing the flag, if at all,
before its first write.  After `backlightOff()` the four writes of the next
`printChar(b)` have the bit clear; after `backlightOn()` they have it set. -/
theorem backlight_bit_on_every_write (s : State) (hs : Reachable s) (hr : s._isReady ≠ 0) :
    (∀ t, Step s t →
      (t._backlightStatus = 0 ∨ t._backlightStatus = 0x08) ∧
      ∃ ws, writes t.trace = writes s.trace ++ ws ∧
        ∀ w ∈ ws, (w &&& 0x08 = t._backlightStatus ∧ (w &&& 0x08 = 0x08 ↔ t._backlightStatus ≠ 0))) ∧
    (∀ b, ∃ w0 w1 w2 w3,
      writes (printChar (backlightOff s) b).trace =
        writes (backlightOff s).trace ++ [w0, w1, w2, w3] ∧
      w0 &&& 0x08 = 0 ∧ w1 &&& 0x08 = 0 ∧ w2 &&& 0x08 = 0 ∧ w3 &&& 0x08 = 0) ∧
    (∀ b, ∃ w0 w1 w2 w3,
      writes (printChar (backlightOn s) b).trace =
        writes (backlightOn s).trace ++ [w0, w1, w2, w3] ∧
      w0 &&& 0x08 = 0x08 ∧ w1 &&& 0x08 = 0x08 ∧ w2 &&& 0x08 = 0x08 ∧ w3 &&& 0x08 = 0x08) := by
  obtain ⟨hw, hi⟩ := reachable_inv hs
  obtain ⟨hb, hc⟩ := hi hr
  refine ⟨fun t ht => ?_, fun b => ?_, fun b => ?_⟩
  · obtain ⟨k1, -, k3, k4⟩ := step_inv ht hw hi
    have hbt := (k4 (by rw [k1]; exact hr)).1
    obtain ⟨ws, h1, h2⟩ := step_writes ht hw hr hb
    refine ⟨hbt, ws, h1, fun w hmem => ⟨h2 w hmem, ?_⟩⟩
    rw [h2 w hmem]
    rcases hbt with h | h <;> simp [h]
  · have hoff := backlightOff_ready s hw hr
    have hw2 : Wired (backlightOff s) := by rw [hoff]; exact ⟨hw.1, hw.2, hw.3, hw.4, hw.5, hw.6⟩
    have hr2 : (backlightOff s)._isReady ≠ 0 := by rw [hoff]; exact hr
    have hb2 : (backlightOff s)._backlightStatus = 0 := by rw [hoff]
    have hbits := specByte_bits (backlightOff s)._i2cAddr 1 0 (u8 b) (by decide) (Or.inl rfl)
      (u8_lt _)
    rw [printChar_ready _ hw2 hr2 (Or.inl hb2), hb2]
    simp only [writes_append]
    rw [writes_specByte] at hbits ⊢
    exact ⟨_, _, _, _, rfl, (hbits _ (by simp)).2, (hbits _ (by simp)).2,
      (hbits _ (by simp)).2, (hbits _ (by simp)).2⟩
  · have hon := backlightOn_ready s hw hr
    have hw2 : Wired (backlightOn s) := by rw [hon]; exact ⟨hw.1, hw.2, hw.3, hw.4, hw.5, hw.6⟩
    have hr2 : (backlightOn s)._isReady ≠ 0 := by rw [hon]; exact hr
    have hb2 : (backlightOn s)._backlightStatus = 8 := by rw [hon]
    have hbits := specByte_bits (backlightOn s)._i2cAddr 1 8 (u8 b) (by decide) (Or.inr rfl)
      (u8_lt _)
    rw [printChar_ready _ hw2 hr2 (Or.inr hb2), hb2]
    simp only [writes_append]
    rw [writes_specByte] at hbits ⊢
    exact ⟨_, _, _, _, rfl, (hbits _ (by simp)).2, (hbits _ (by simp)).2,
      (hbits _ (by simp)).2, (hbits _ (by simp)).2⟩

theorem backlight_bit_on_every_write_witness :
    ∃ w0 w1 w2 w3,
      writes (printChar (backlightOff (LCD_I2C 0x27 1 0 0)) 0x41).trace =
        writes (backlightOff (LCD_I2C 0x27 1 0 0)).trace ++ [w0, w1, w2, w3] ∧
      w0 &&& 0x08 = 0 ∧ w1 &&& 0x08 = 0 ∧ w2 &&& 0x08 = 0 ∧ w3 &&& 0x08 = 0 :=
  (backlight_bit_on_every_write (LCD_I2C 0x27 1 0 0) (reachable_construct _ _ _ _)
    (by rw [construct_isReady]; decide)).2.1 0x41

theorem print_one_char (s : State) (c : Nat) (hc : c ≠ 0) (fuel : Nat) (hf : 2 ≤ fuel) :
    print fuel s [c, 0] = some (printChar s (u8 c)) := by
  obtain ⟨n, rfl⟩ : ∃ n, fuel = n + 2 := ⟨fuel - 2, by omega⟩
  have hl : strlen [c, 0] = 1 := by simp [strlen, hc]
  have h1 : u8 (0 + 1) = 1 := by decide
  unfold print
  rw [printLoop, hl, if_pos (by decide), h1, printLoop, hl, if_neg (by decide)]
  rfl

/-- C8: the register-select bit 0x01 marks data.  On a ready object every write
added by `printChar` or by a returning `print` has the bit set, every write
added by `clear`, `setCursor`, `backlightOn`, `backlightOff`, `displayOn` or
`displayOff` has it clear, and so has every write of a successful construction.
`print("A")` returns after one `printChar(0x41)`, which adds four writes: the
pulse of nibble 4, then the pulse of nibble 1, all with the bit set. -/
theorem register_select_iff_data (s : State) (hs : Reachable s) (hr : s._isReady ≠ 0) :
    (∀ v, ∃ ws, writes (printChar s v).trace = writes s.trace ++ ws ∧
      ∀ w ∈ ws, w &&& 0x01 = 0x01) ∧
    (∀ msg fuel t, print fuel s msg = some t →
      ∃ ws, writes t.trace = writes s.trace ++ ws ∧ ∀ w ∈ ws, w &&& 0x01 = 0x01) ∧
    (∀ t, (t = clear s ∨ (∃ x y, t = setCursor s x y) ∨ t = backlightOn s ∨ t = backlightOff s ∨
        t = displayOn s ∨ t = displayOff s) →
      ∃ ws, writes t.trace = writes s.trace ++ ws ∧ ∀ w ∈ ws, w &&& 0x01 = 0) ∧
    (∀ i2cAddr response ctrl0 bl0, response ≠ 0 →
      ∀ w ∈ writes (LCD_I2C i2cAddr response ctrl0 bl0).trace, w &&& 0x01 = 0) ∧
    (∀ fuel, 2 ≤ fuel → print fuel s [0x41, 0] = some (printChar s 0x41)) ∧
    writes (printChar s 0x41).trace =
      writes s.trace ++
        [0x4 <<< 4 ||| 0x01 ||| s._backlightStatus ||| 0x04,
         0x4 <<< 4 ||| 0x01 ||| s._backlightStatus,
         0x1 <<< 4 ||| 0x01 ||| s._backlightStatus ||| 0x04,
         0x1 <<< 4 ||| 0x01 ||| s._backlightStatus] := by
  obtain ⟨hw, hi⟩ := reachable_inv hs
  obtain ⟨hb, hc⟩ := hi hr
  have cmd : ∀ bl v tr, (bl = 0 ∨ bl = 8) →
      ∃ ws, writes (tr ++ specByte s._i2cAddr 0 bl (u8 v)) = writes tr ++ ws ∧
        ∀ w ∈ ws, w &&& 0x01 = 0 := fun bl v tr hbl =>
    ⟨_, writes_append _ _, fun w hmem =>
      (specByte_bits _ 0 bl _ (by decide) hbl (u8_lt v) w hmem).1⟩
  refine ⟨fun v => ?_, fun msg fuel t hp => ?_, fun t ht => ?_, fun a r c b hne w hmem => ?_,
    fun fuel hf => print_one_char s 0x41 (by decide) fuel hf, ?_⟩
  · rw [printChar_ready s hw hr hb]
    exact ⟨_, writes_append _ _, fun w hmem =>
      (specByte_bits _ 1 _ _ (by decide) hb (u8_lt v) w hmem).1⟩
  · obtain ⟨cs, hcs⟩ := printLoop_fold msg fuel 0 s t hp
    rw [hcs, foldl_printChar_ready s hw hr hb cs s.trace]
    refine ⟨_, writes_append _ _, fun w hmem => ?_⟩
    rw [writes_flatMap] at hmem
    obtain ⟨c, -, hc⟩ := List.mem_flatMap.1 hmem
    exact (specByte_bits _ 1 _ _ (by decide) hb (u8_lt c) w hc).1
  · rcases ht with h | ⟨x, y, h⟩ | h | h | h | h <;> subst h
    · rw [clear_ready s hw hr hb]
      obtain ⟨ws, h1, h2⟩ := cmd s._backlightStatus 0x01 s.trace hb
      refine ⟨ws, ?_, h2⟩
      simp only [writes_append, writes_delay, List.append_nil] at h1 ⊢
      exact h1
    · rw [setCursor_ready s hw hr hb]
      exact cmd _ _ _ hb
    · rw [backlightOn_ready s hw hr]
      exact cmd _ _ _ (Or.inr rfl)
    · rw [backlightOff_ready s hw hr]
      exact cmd _ _ _ (Or.inl rfl)
    · rw [displayOn_ready s hw hr hb]
      exact cmd _ _ _ hb
    · rw [displayOff_ready s hw hr hb]
      exact cmd _ _ _ hb
  · rw [construct_writes a r c b hne] at hmem
    revert w
    decide
  · rw [printChar_ready s hw hr hb]
    simp only [writes_append]
    rfl

theorem register_select_iff_data_witness :
    writes (printChar (LCD_I2C 0x27 1 0 0) 0x41).trace =
      writes (LCD_I2C 0x27 1 0 0).trace ++
        [0x4 <<< 4 ||| 0x01 ||| (LCD_I2C 0x27 1 0 0)._backlightStatus ||| 0x04,
         0x4 <<< 4 ||| 0x01 ||| (LCD_I2C 0x27 1 0 0)._backlightStatus,
         0x1 <<< 4 ||| 0x01 ||| (LCD_I2C 0x27 1 0 0)._backlightStatus ||| 0x04,
         0x1 <<< 4 ||| 0x01 ||| (LCD_I2C 0x27 1 0 0)._backlightStatus] :=
  (register_select_iff_data (LCD_I2C 0x27 1 0 0) (reachable_construct _ _ _ _)
    (by rw [construct_isReady]; decide)).2.2.2.2.2

/-! ## The loop of `print` -/

theorem printLoop_stuck (msg : List Nat) (hlen : 256 ≤ strlen msg) (fuel : Nat) :
    ∀ (i : Nat) (s : State), i < 256 → printLoop msg fuel i s = none := by
  induction fuel with
  | zero => intro i s _; rfl
  | succ n ih =>
    intro i s hi
    rw [printLoop, if_pos (by omega)]
    exact ih _ _ (u8_lt _)

theorem printLoop_returns (msg : List Nat) (hlen : strlen msg < 256) (k : Nat) :
    ∀ (i : Nat) (s : State), i + k = strlen msg →
      printLoop msg (k + 1) i s =
        some (((List.range' i k).map (fun j => u8 (msg.getD j 0))).foldl printChar s) := by
  induction k with
  | zero =>
    intro i s h
    rw [printLoop, if_neg (by omega)]
    rfl
  | succ n ih =>
    intro i s h
    have hu : u8 (i + 1) = i + 1 := Nat.mod_eq_of_lt (by omega)
    rw [printLoop, if_pos (by omega), hu, ih (i + 1) _ (by omega)]
    rfl

theorem strlen_text (cs : List Nat) (h : ∀ c ∈ cs, c ≠ 0) : strlen (cs ++ [0]) = cs.length := by
  induction cs with
  | nil => rfl
  | cons c cs ih =>
    have hc : c ≠ 0 := h c (List.mem_cons_self _ _)
    have := ih (fun d hd => h d (List.mem_cons_of_mem _ hd))
    simp [strlen, hc, this]

theorem length_writes_flatMap (a rs bl : Nat) (cs : List Nat) :
    (writes (cs.flatMap (fun c => specByte a rs bl (u8 c)))).length = 4 * cs.length := by
  induction cs with
  | nil => rfl
  | cons c cs ih =>
    rw [List.flatMap_cons, writes_append, List.length_append, ih, writes_specByte]
    simp only [List.length_cons, List.length_nil]
    omega

/-- C9, the failing input: a text of 256 characters followed by its NUL.  The
loop counter of `print` is a `uint8_t`, so it never reaches the length 256 and
the loop test stays true: whatever bound is put on the number of loop tests,
`print` has not returned.  A text of 255 characters does return, after adding
4 * 255 transport writes. -/
theorem print_256_chars_never_returns :
    (∀ fuel, print fuel (LCD_I2C 0x27 1 0 0) (List.replicate 256 0x41 ++ [0]) = none) ∧
    (∃ t, print 256 (LCD_I2C 0x27 1 0 0) (List.replicate 255 0x41 ++ [0]) = some t ∧
      (writes t.trace).length = (writes (LCD_I2C 0x27 1 0 0).trace).length + 4 * 255) := by
  have nz : ∀ n, ∀ c ∈ List.replicate n 0x41, c ≠ 0 := by
    intro n c hc
    rw [List.eq_of_mem_replicate hc]
    decide
  constructor
  · intro fuel
    have hl : strlen (List.replicate 256 0x41 ++ [0]) = 256 := by
      rw [strlen_text _ (nz 256), List.length_replicate]
    exact printLoop_stuck _ (by rw [hl]) fuel 0 _ (by decide)
  · have hl : strlen (List.replicate 255 0x41 ++ [0]) = 255 := by
      rw [strlen_text _ (nz 255), List.length_replicate]
    obtain ⟨hw, hr', -, hi⟩ := construct_inv 0x27 1 0 0
    have hr : (LCD_I2C 0x27 1 0 0)._isReady ≠ 0 := by rw [hr']; decide
    have hb := (hi hr).1
    refine ⟨_, printLoop_returns _ (by rw [hl]; decide) 255 0 _ (by rw [hl]), ?_⟩
    rw [foldl_printChar_ready _ hw hr hb _ (LCD_I2C 0x27 1 0 0).trace]
    simp only [writes_append, List.length_append, length_writes_flatMap, List.length_map,
      List.length_range']

/-! ## Display control -/

theorem sendCmd_events (s : State) (v : Nat) :
    ∃ evs, ∀ (c : Nat) (tr : List Event),
      sendCmd { s with _ctrlFlags := c, trace := tr } v =
        { s with _ctrlFlags := c, trace := tr ++ evs } :=
  ⟨(sendCmd { s with trace := [] } v).trace, fun c tr => by
    simp [sendCmd, writeCmdNibble, writeI2C_eq, mapPins]⟩

theorem or_display_on (c : Nat) :
    u8 (u8 (c ||| CTRL_DISPLAY_ON) ||| CTRL_DISPLAY_ON) = u8 (c ||| CTRL_DISPLAY_ON) ∧
      u8 (c ||| CTRL_DISPLAY_ON) &&& CTRL_DISPLAY_ON = CTRL_DISPLAY_ON := by
  have h256 : (256 : Nat) = 2 ^ 8 := by decide
  constructor
  · apply Nat.eq_of_testBit_eq
    intro i
    simp only [u8, h256, Nat.testBit_mod_two_pow, Nat.testBit_or]
    cases decide (i < 8) <;> cases c.testBit i <;> cases Nat.testBit CTRL_DISPLAY_ON i <;> rfl
  · apply Nat.eq_of_testBit_eq
    intro i
    simp only [u8, h256, Nat.testBit_mod_two_pow, Nat.testBit_or, Nat.testBit_and]
    by_cases hi : i < 8
    · cases c.testBit i <;> cases Nat.testBit CTRL_DISPLAY_ON i <;> simp [hi]
    · have : Nat.testBit CTRL_DISPLAY_ON i = false :=
        Nat.testBit_lt_two_pow (Nat.lt_of_lt_of_le (by decide : CTRL_DISPLAY_ON < 2 ^ 8)
          (Nat.pow_le_pow_right (by decide) (by omega)))
      simp [hi, this]

/-- C10: `displayOn()` is idempotent on the control flags.  For every object
state, after the first call the display-on bit 0x04 is set in `_ctrlFlags`, a
second call leaves `_ctrlFlags` as the first left it, both calls are a
`sendCmd` of the same byte `CMD_CTRL | _ctrlFlags`, and both add the same
events to the trace. -/
theorem displayOn_twice (s : State) :
    (displayOn s)._ctrlFlags &&& CTRL_DISPLAY_ON = CTRL_DISPLAY_ON ∧
    (displayOn (displayOn s))._ctrlFlags = (displayOn s)._ctrlFlags ∧
    displayOn s =
      sendCmd { s with _ctrlFlags := (displayOn s)._ctrlFlags }
        (u8 (CMD_CTRL ||| (displayOn s)._ctrlFlags)) ∧
    displayOn (displayOn s) =
      sendCmd (displayOn s) (u8 (CMD_CTRL ||| (displayOn s)._ctrlFlags)) ∧
    ∃ evs, (displayOn s).trace = s.trace ++ evs ∧
      (displayOn (displayOn s)).trace = (displayOn s).trace ++ evs := by
  obtain ⟨h1, h2⟩ := or_display_on s._ctrlFlags
  obtain ⟨evs, hev⟩ :=
    sendCmd_events s (u8 (CMD_CTRL ||| u8 (s._ctrlFlags ||| CTRL_DISPLAY_ON)))
  have outer : ∀ d : State, displayOn d =
      sendCmd { d with _ctrlFlags := u8 (d._ctrlFlags ||| CTRL_DISPLAY_ON) }
        (u8 (CMD_CTRL ||| u8 (d._ctrlFlags ||| CTRL_DISPLAY_ON))) := fun _ => rfl
  have hD : displayOn s =
      { s with
        _ctrlFlags := u8 (s._ctrlFlags ||| CTRL_DISPLAY_ON)
        trace := s.trace ++ evs } := by
    rw [outer s]
    exact hev _ _
  have hDD : displayOn (displayOn s) =
      { s with
        _ctrlFlags := u8 (s._ctrlFlags ||| CTRL_DISPLAY_ON)
        trace := s.trace ++ evs ++ evs } := by
    rw [outer (displayOn s), hD]
    simp only [h1]
    exact hev _ _
  have hS : sendCmd (displayOn s) (u8 (CMD_CTRL ||| u8 (s._ctrlFlags ||| CTRL_DISPLAY_ON))) =
      { s with
        _ctrlFlags := u8 (s._ctrlFlags ||| CTRL_DISPLAY_ON)
        trace := s.trace ++ evs ++ evs } := by
    rw [hD]
    exact hev _ _
  have hc : (displayOn s)._ctrlFlags = u8 (s._ctrlFlags ||| CTRL_DISPLAY_ON) := by rw [hD]
  have ht : (displayOn s).trace = s.trace ++ evs := by rw [hD]
  refine ⟨by rw [hc]; exact h2, by rw [hDD, hc], ?_, ?_, evs, ht, by rw [hDD, ht]⟩
  · rw [hc]
    exact outer s
  · rw [hc, hS, hDD]

/-! ## The power-on sequence -/

/-- C11: after a successful probe the construction trace continues with the
150 ms wait after power-on and then three times the command-nibble pulse of the
"function set, 8-bit" nibble 0x3, each pulse being one nibble pulse (the two
writes 0x34, 0x30) sent by `sendCmdNibble`, not the four writes of a two-nibble
command.  The first pulse is followed by a wait of 4200 us (at least 4.1 ms),
the second and the third by a wait of 110 us (at least 100 us); the pulse of
the 4-bit nibble 0x2 comes next.  The waits are events of the trace, between the
writes. -/
theorem forced_8bit_pulses (i2cAddr response ctrl0 bl0 : Nat) (h : response ≠ 0) :
    MODE_8BIT = 0x3 ∧
    (∀ s : State, sendCmdNibble s MODE_8BIT = writeCmdNibble s 0x3) ∧
    writes (specNibblePulse i2cAddr 0 0 MODE_8BIT) = [0x34, 0x30] ∧
    ∃ d0 d1 d2 d3 rest,
      (LCD_I2C i2cAddr response ctrl0 bl0).trace =
        [.wireBegin, .requestFrom i2cAddr 1, .wireRead] ++ specTransfer i2cAddr 0x00 ++
        [.delay d0] ++
        specNibblePulse i2cAddr 0 0 MODE_8BIT ++ [.delayMicroseconds d1] ++
        specNibblePulse i2cAddr 0 0 MODE_8BIT ++ [.delayMicroseconds d2] ++
        specNibblePulse i2cAddr 0 0 MODE_8BIT ++ [.delayMicroseconds d3] ++
        specNibblePulse i2cAddr 0 0 MODE_4BIT ++ rest ∧
      d0 = 150 ∧ d1 = 4200 ∧ d2 = 110 ∧ d3 = 110 ∧
      150 ≤ d0 ∧ 4100 ≤ d1 ∧ 100 ≤ d2 ∧ 100 ≤ d3 := by
  have ht := congrArg State.trace (construct_ready i2cAddr response ctrl0 bl0 h)
  simp only [] at ht
  refine ⟨by decide, fun s => rfl, rfl, 150, 4200, 110, 110,
    specByte i2cAddr 0 0 0x28 ++ specByte i2cAddr 0 0 0x08 ++ specByte i2cAddr 0 0 0x01 ++
      [.delay 2] ++ specByte i2cAddr 0 0 0x06 ++ specByte i2cAddr 0 0x08 0x08 ++
      specByte i2cAddr 0 0x08 0x0C, ?_, rfl, rfl, rfl, rfl, by decide, by decide, by decide,
    by decide⟩
  rw [ht]
  simp only [List.append_assoc, MODE_8BIT, MODE_4BIT]
  rfl

theorem forced_8bit_pulses_witness :
    ∃ d0 d1 d2 d3 rest,
      (LCD_I2C 0x27 1 0 0).trace =
        [.wireBegin, .requestFrom 0x27 1, .wireRead] ++ specTransfer 0x27 0x00 ++
        [.delay d0] ++
        specNibblePulse 0x27 0 0 MODE_8BIT ++ [.delayMicroseconds d1] ++
        specNibblePulse 0x27 0 0 MODE_8BIT ++ [.delayMicroseconds d2] ++
        specNibblePulse 0x27 0 0 MODE_8BIT ++ [.delayMicroseconds d3] ++
        specNibblePulse 0x27 0 0 MODE_4BIT ++ rest ∧
      d0 = 150 ∧ d1 = 4200 ∧ d2 = 110 ∧ d3 = 110 ∧
      150 ≤ d0 ∧ 4100 ≤ d1 ∧ 100 ≤ d2 ∧ 100 ≤ d3 :=
  (forced_8bit_pulses 0x27 1 0 0 (by decide)).2.2.2

/-- C12: after a construction whose probe succeeded the display and the
backlight are on.  The cached control flags are 0x04 (the display-on bit), the
cached backlight flag is the backlight pin bit 0x08, and the trace ends with
the command byte `CMD_CTRL | CTRL_DISPLAY_ON` = 0x0C sent with the backlight
bit: its four writes 0x0C, 0x08, 0xCC, 0xC8 are the last four transport writes
and each has bit 0x08 set. -/
theorem constructed_display_and_backlight_on (i2cAddr response ctrl0 bl0 : Nat)
    (h : response ≠ 0) :
    (LCD_I2C i2cAddr response ctrl0 bl0)._ctrlFlags = CTRL_DISPLAY_ON ∧
    (LCD_I2C i2cAddr response ctrl0 bl0)._ctrlFlags &&& CTRL_DISPLAY_ON = 0x04 ∧
    (LCD_I2C i2cAddr response ctrl0 bl0)._backlightStatus =
      (LCD_I2C i2cAddr response ctrl0 bl0)._backlightPin ∧
    (LCD_I2C i2cAddr response ctrl0 bl0)._backlightPin = 0x08 ∧
    CMD_CTRL ||| CTRL_DISPLAY_ON = 0x0C ∧
    (∃ before, (LCD_I2C i2cAddr response ctrl0 bl0).trace =
      before ++ specByte i2cAddr 0 0x08 (CMD_CTRL ||| CTRL_DISPLAY_ON)) ∧
    (∃ before, writes (LCD_I2C i2cAddr response ctrl0 bl0).trace =
      before ++ [0x0C, 0x08, 0xCC, 0xC8]) ∧
    writes (specByte i2cAddr 0 0x08 (CMD_CTRL ||| CTRL_DISPLAY_ON)) = [0x0C, 0x08, 0xCC, 0xC8] ∧
    ∀ w ∈ [0x0C, 0x08, 0xCC, 0xC8], w &&& 0x08 = 0x08 := by
  have hs := construct_ready i2cAddr response ctrl0 bl0 h
  have ht := congrArg State.trace hs
  have hw := construct_writes i2cAddr response ctrl0 bl0 h
  have hc : (LCD_I2C i2cAddr response ctrl0 bl0)._ctrlFlags = 0x04 :=
    congrArg State._ctrlFlags hs
  have hb : (LCD_I2C i2cAddr response ctrl0 bl0)._backlightStatus = 0x08 :=
    congrArg State._backlightStatus hs
  have hp : (LCD_I2C i2cAddr response ctrl0 bl0)._backlightPin = 0x08 :=
    congrArg State._backlightPin hs
  simp only [] at ht
  refine ⟨hc, by rw [hc]; decide, by rw [hb, hp], hp, by decide, ⟨_, ht⟩, ?_, rfl,
    by decide⟩
  rw [hw]
  exact ⟨[0x00, 0x34, 0x30, 0x34, 0x30, 0x34, 0x30, 0x24, 0x20, 0x24, 0x20, 0x84, 0x80,
    0x04, 0x00, 0x84, 0x80, 0x04, 0x00, 0x14, 0x10, 0x04, 0x00, 0x64, 0x60, 0x0C, 0x08,
    0x8C, 0x88], rfl⟩

theorem constructed_display_and_backlight_on_witness :
    (LCD_I2C 0x27 1 0 0)._ctrlFlags = CTRL_DISPLAY_ON ∧
    (LCD_I2C 0x27 1 0 0)._ctrlFlags &&& CTRL_DISPLAY_ON = 0x04 ∧
    (LCD_I2C 0x27 1 0 0)._backlightStatus = (LCD_I2C 0x27 1 0 0)._backlightPin ∧
    (LCD_I2C 0x27 1 0 0)._backlightPin = 0x08 :=
  have h := constructed_display_and_backlight_on 0x27 1 0 0 (by decide)
  ⟨h.1, h.2.1, h.2.2.1, h.2.2.2.1⟩

/-! ## Frame of the control operations -/

theorem sendCmd_frame (s : State) (bl v : Nat) :
    ∃ evs, ∀ (c : Nat) (tr : List Event),
      sendCmd { s with _ctrlFlags := c, _backlightStatus := bl, trace := tr } v =
        { s with _ctrlFlags := c, _backlightStatus := bl, trace := tr ++ evs } := by
  obtain ⟨evs, h⟩ := sendCmd_events { s with _backlightStatus := bl } v
  exact ⟨evs, fun c tr => h c tr⟩

set_option maxRecDepth 1000000 in
theorem ctrl_or_bits :
    ∀ c, c < 256 →
      u8 (c ||| CTRL_DISPLAY_ON) = c ||| 0x04 ∧
      (c ||| 0x04) &&& 0xFB = c &&& 0xFB ∧
      (c ||| 0x04) &&& 0x04 = 0x04 ∧
      c ||| 0x04 < 256 := by
  decide

set_option maxRecDepth 1000000 in
theorem ctrl_and_bits :
    ∀ c, c < 256 →
      u8 (c &&& compl8 CTRL_DISPLAY_ON) = c &&& 0xFB ∧
      (c &&& 0xFB) &&& 0xFB = c &&& 0xFB ∧
      (c &&& 0xFB) &&& 0x04 = 0 ∧
      c &&& 0xFB ||| 0x04 = c ||| 0x04 ∧
      c &&& 0xFB < 256 := by
  decide

theorem displayOn_frame (s : State) :
    ∃ evs, displayOn s =
      { s with
        _ctrlFlags := u8 (s._ctrlFlags ||| CTRL_DISPLAY_ON)
        trace := s.trace ++ evs } := by
  obtain ⟨evs, h⟩ :=
    sendCmd_events s (u8 (CMD_CTRL ||| u8 (s._ctrlFlags ||| CTRL_DISPLAY_ON)))
  exact ⟨evs, h _ _⟩

theorem displayOff_frame (s : State) :
    ∃ evs, displayOff s =
      { s with
        _ctrlFlags := u8 (s._ctrlFlags &&& compl8 CTRL_DISPLAY_ON)
        trace := s.trace ++ evs } := by
  obtain ⟨evs, h⟩ :=
    sendCmd_events s (u8 (CMD_CTRL ||| u8 (s._ctrlFlags &&& compl8 CTRL_DISPLAY_ON)))
  exact ⟨evs, h _ _⟩

/-- C13: for every object state (its `_ctrlFlags` being a byte), `displayOn()`
sets bit 0x04 of the cached control flags and `displayOff()` clears it; the
other seven bits of the flags and the backlight flag stay as they were.  Each
then makes one `sendCmd` of the byte `CMD_CTRL | _ctrlFlags` with the updated
flags, which on a ready object appears on the wire as that one command byte.
`displayOff()` followed by `displayOn()` leaves the same control flags as
`displayOn()` alone. -/
theorem display_bit_update (s : State) (hc : s._ctrlFlags < 256) :
    ((displayOn s)._ctrlFlags = s._ctrlFlags ||| CTRL_DISPLAY_ON ∧
      (displayOn s)._ctrlFlags &&& 0x04 = 0x04 ∧
      (displayOn s)._ctrlFlags &&& 0xFB = s._ctrlFlags &&& 0xFB ∧
      (displayOn s)._backlightStatus = s._backlightStatus ∧
      displayOn s =
        sendCmd { s with _ctrlFlags := (displayOn s)._ctrlFlags }
          (u8 (CMD_CTRL ||| (displayOn s)._ctrlFlags))) ∧
    ((displayOff s)._ctrlFlags = s._ctrlFlags &&& 0xFB ∧
      (displayOff s)._ctrlFlags &&& 0x04 = 0 ∧
      (displayOff s)._ctrlFlags &&& 0xFB = s._ctrlFlags &&& 0xFB ∧
      (displayOff s)._backlightStatus = s._backlightStatus ∧
      displayOff s =
        sendCmd { s with _ctrlFlags := (displayOff s)._ctrlFlags }
          (u8 (CMD_CTRL ||| (displayOff s)._ctrlFlags))) ∧
    (displayOn (displayOff s))._ctrlFlags = (displayOn s)._ctrlFlags ∧
    (Reachable s → s._isReady ≠ 0 →
      (displayOn s).trace =
        s.trace ++ specByte s._i2cAddr 0 s._backlightStatus
          (CMD_CTRL ||| (displayOn s)._ctrlFlags) ∧
      (displayOff s).trace =
        s.trace ++ specByte s._i2cAddr 0 s._backlightStatus
          (CMD_CTRL ||| (displayOff s)._ctrlFlags) ∧
      CMD_CTRL ||| (displayOn s)._ctrlFlags = 0x0C ∧
      CMD_CTRL ||| (displayOff s)._ctrlFlags = 0x08) := by
  obtain ⟨a1, a2, a3, a4⟩ := ctrl_or_bits _ hc
  obtain ⟨b1, b2, b3, b4, b5⟩ := ctrl_and_bits _ hc
  obtain ⟨e1, hon⟩ := displayOn_frame s
  obtain ⟨e2, hoff⟩ := displayOff_frame s
  obtain ⟨e3, hon2⟩ := displayOn_frame (displayOff s)
  have con : (displayOn s)._ctrlFlags = s._ctrlFlags ||| 0x04 := by rw [hon]; exact a1
  have coff : (displayOff s)._ctrlFlags = s._ctrlFlags &&& 0xFB := by rw [hoff]; exact b1
  have bon : (displayOn s)._backlightStatus = s._backlightStatus := by rw [hon]
  have boff : (displayOff s)._backlightStatus = s._backlightStatus := by rw [hoff]
  have con2 : (displayOn (displayOff s))._ctrlFlags = s._ctrlFlags ||| 0x04 := by
    rw [hon2]
    show u8 ((displayOff s)._ctrlFlags ||| CTRL_DISPLAY_ON) = s._ctrlFlags ||| 0x04
    rw [coff, (ctrl_or_bits _ b5).1, b4]
  refine ⟨⟨con, by rw [con]; exact a3, by rw [con]; exact a2, bon, ?_⟩,
    ⟨coff, by rw [coff]; exact b3, by rw [coff]; exact b2, boff, ?_⟩, by rw [con2, con], ?_⟩
  · rw [con, ← a1]
    rfl
  · rw [coff, ← b1]
    rfl
  · intro hs hr
    obtain ⟨hw, hi⟩ := reachable_inv hs
    obtain ⟨hb, hcc⟩ := hi hr
    have ton := congrArg State.trace (displayOn_ready s hw hr hb)
    have toff := congrArg State.trace (displayOff_ready s hw hr hb)
    simp only [] at ton toff
    rw [con, coff, ton, toff]
    rcases hcc with h | h <;> rw [h] <;> exact ⟨rfl, rfl, rfl, rfl⟩

theorem construct_flags (a r c b : Nat) (h : r ≠ 0) :
    (LCD_I2C a r c b)._ctrlFlags = 0x04 ∧ (LCD_I2C a r c b)._backlightStatus = 0x08 :=
  ⟨congrArg State._ctrlFlags (construct_ready a r c b h),
   congrArg State._backlightStatus (construct_ready a r c b h)⟩

theorem display_bit_update_witness :
    (displayOn (displayOff (LCD_I2C 0x27 1 0 0)))._ctrlFlags =
        (displayOn (LCD_I2C 0x27 1 0 0))._ctrlFlags ∧
      CMD_CTRL ||| (displayOn (LCD_I2C 0x27 1 0 0))._ctrlFlags = 0x0C ∧
      CMD_CTRL ||| (displayOff (LCD_I2C 0x27 1 0 0))._ctrlFlags = 0x08 :=
  have h := display_bit_update (LCD_I2C 0x27 1 0 0)
    (by rw [(construct_flags 0x27 1 0 0 (by decide)).1]; decide)
  have k := h.2.2.2 (reachable_construct _ _ _ _) (by rw [construct_isReady]; decide)
  ⟨h.2.2.1, k.2.2.1, k.2.2.2⟩

theorem backlightOn_frame (s : State) :
    ∃ evs, backlightOn s =
      { s with _backlightStatus := s._backlightPin, trace := s.trace ++ evs } := by
  obtain ⟨evs, h⟩ := sendCmd_frame s s._backlightPin (u8 (CMD_CTRL ||| s._ctrlFlags))
  exact ⟨evs, h _ _⟩

theorem backlightOff_frame (s : State) :
    ∃ evs, backlightOff s = { s with _backlightStatus := 0, trace := s.trace ++ evs } := by
  obtain ⟨evs, h⟩ := sendCmd_frame s 0 (u8 (CMD_CTRL ||| s._ctrlFlags))
  exact ⟨evs, h _ _⟩

set_option maxRecDepth 1000000 in
theorem pulse_high_bits :
    ∀ n, n < 16 → ∀ rs, rs < 2 → ∀ k, k < 2 → (n <<< 4 ||| rs ||| 8 * k) >>> 4 = n := by
  decide

set_option maxRecDepth 1000000 in
theorem byte_of_nibbles : ∀ b, b < 256 → (b >>> 4) <<< 4 ||| (b &&& 0xF) = b := by
  decide

/-- The four writes of a byte on the wire: their backlight and register-select
bits, and the byte that the two enable-clear writes carry in bits 4..7. -/
theorem specByte_decode (a rs bl b : Nat) (hrs : rs < 2) (hbl : bl = 0 ∨ bl = 8)
    (hb : b < 256) :
    ∃ w0 w1 w2 w3, writes (specByte a rs bl b) = [w0, w1, w2, w3] ∧
      (w0 &&& 0x08 = bl ∧ w1 &&& 0x08 = bl ∧ w2 &&& 0x08 = bl ∧ w3 &&& 0x08 = bl) ∧
      (w0 &&& 0x01 = rs ∧ w1 &&& 0x01 = rs ∧ w2 &&& 0x01 = rs ∧ w3 &&& 0x01 = rs) ∧
      (w1 >>> 4) <<< 4 ||| (w3 >>> 4) = b := by
  obtain ⟨h1, h2⟩ := nibbles_lt b hb
  have hbits := specByte_bits a rs bl b hrs hbl hb
  rw [writes_specByte] at hbits ⊢
  refine ⟨_, _, _, _, rfl, ⟨(hbits _ (by simp)).2, (hbits _ (by simp)).2, (hbits _ (by simp)).2,
    (hbits _ (by simp)).2⟩, ⟨(hbits _ (by simp)).1, (hbits _ (by simp)).1,
    (hbits _ (by simp)).1, (hbits _ (by simp)).1⟩, ?_⟩
  rcases hbl with h | h <;> subst h
  · have p1 := pulse_high_bits (b >>> 4) h1 rs hrs 0 (by decide)
    have p2 := pulse_high_bits (b &&& 0xF) h2 rs hrs 0 (by decide)
    simp only [Nat.mul_zero] at p1 p2
    rw [p1, p2]
    exact byte_of_nibbles b hb
  · have p1 := pulse_high_bits (b >>> 4) h1 rs hrs 1 (by decide)
    have p2 := pulse_high_bits (b &&& 0xF) h2 rs hrs 1 (by decide)
    simp only [Nat.mul_one] at p1 p2
    rw [p1, p2]
    exact byte_of_nibbles b hb

/-- C14: `backlightOn()` and `backlightOff()` change, besides the trace, only
the cached backlight flag, to the backlight pin bit 0x08 and to 0; the cached
control flags stay.  Each then makes one `sendCmd` of `CMD_CTRL | _ctrlFlags`;
on a ready object this adds four writes that carry that byte and already have
the new backlight bit: set after `backlightOn()`, clear after
`backlightOff()`. -/
theorem backlight_update (s : State) (hs : Reachable s) :
    s._backlightPin = 0x08 ∧
    (∃ evs, backlightOn s =
      { s with _backlightStatus := s._backlightPin, trace := s.trace ++ evs }) ∧
    (∃ evs, backlightOff s = { s with _backlightStatus := 0, trace := s.trace ++ evs }) ∧
    (backlightOn s)._ctrlFlags = s._ctrlFlags ∧
    (backlightOff s)._ctrlFlags = s._ctrlFlags ∧
    backlightOn s =
      sendCmd { s with _backlightStatus := s._backlightPin } (u8 (CMD_CTRL ||| s._ctrlFlags)) ∧
    backlightOff s =
      sendCmd { s with _backlightStatus := 0 } (u8 (CMD_CTRL ||| s._ctrlFlags)) ∧
    (s._isReady ≠ 0 →
      (∃ w0 w1 w2 w3, writes (backlightOn s).trace = writes s.trace ++ [w0, w1, w2, w3] ∧
        (w0 &&& 0x08 = 0x08 ∧ w1 &&& 0x08 = 0x08 ∧ w2 &&& 0x08 = 0x08 ∧ w3 &&& 0x08 = 0x08) ∧
        (w1 >>> 4) <<< 4 ||| (w3 >>> 4) = CMD_CTRL ||| s._ctrlFlags) ∧
      (∃ w0 w1 w2 w3, writes (backlightOff s).trace = writes s.trace ++ [w0, w1, w2, w3] ∧
        (w0 &&& 0x08 = 0 ∧ w1 &&& 0x08 = 0 ∧ w2 &&& 0x08 = 0 ∧ w3 &&& 0x08 = 0) ∧
        (w1 >>> 4) <<< 4 ||| (w3 >>> 4) = CMD_CTRL ||| s._ctrlFlags)) := by
  obtain ⟨hw, hi⟩ := reachable_inv hs
  obtain ⟨e1, hon⟩ := backlightOn_frame s
  obtain ⟨e2, hoff⟩ := backlightOff_frame s
  refine ⟨hw.backlightPin, ⟨e1, hon⟩, ⟨e2, hoff⟩, by rw [hon], by rw [hoff], rfl, rfl, ?_⟩
  intro hr
  obtain ⟨-, hc⟩ := hi hr
  have hv : u8 (0x08 ||| s._ctrlFlags) = CMD_CTRL ||| s._ctrlFlags := by
    rcases hc with h | h <;> rw [h] <;> rfl
  have hlt : CMD_CTRL ||| s._ctrlFlags < 256 := by
    rcases hc with h | h <;> rw [h] <;> decide
  have ton := congrArg State.trace (backlightOn_ready s hw hr)
  have toff := congrArg State.trace (backlightOff_ready s hw hr)
  simp only [] at ton toff
  rw [ton, toff, hv]
  simp only [writes_append]
  obtain ⟨w0, w1, w2, w3, h1, h2, -, h4⟩ :=
    specByte_decode s._i2cAddr 0 8 _ (by decide) (Or.inr rfl) hlt
  obtain ⟨v0, v1, v2, v3, k1, k2, -, k4⟩ :=
    specByte_decode s._i2cAddr 0 0 _ (by decide) (Or.inl rfl) hlt
  exact ⟨⟨w0, w1, w2, w3, by rw [h1], h2, h4⟩, ⟨v0, v1, v2, v3, by rw [k1], k2, k4⟩⟩

theorem backlight_update_witness :
    (∃ w0 w1 w2 w3,
      writes (backlightOn (LCD_I2C 0x27 1 0 0)).trace =
        writes (LCD_I2C 0x27 1 0 0).trace ++ [w0, w1, w2, w3] ∧
      (w0 &&& 0x08 = 0x08 ∧ w1 &&& 0x08 = 0x08 ∧ w2 &&& 0x08 = 0x08 ∧ w3 &&& 0x08 = 0x08) ∧
      (w1 >>> 4) <<< 4 ||| (w3 >>> 4) = CMD_CTRL ||| (LCD_I2C 0x27 1 0 0)._ctrlFlags) ∧
    (∃ w0 w1 w2 w3,
      writes (backlightOff (LCD_I2C 0x27 1 0 0)).trace =
        writes (LCD_I2C 0x27 1 0 0).trace ++ [w0, w1, w2, w3] ∧
      (w0 &&& 0x08 = 0 ∧ w1 &&& 0x08 = 0 ∧ w2 &&& 0x08 = 0 ∧ w3 &&& 0x08 = 0) ∧
      (w1 >>> 4) <<< 4 ||| (w3 >>> 4) = CMD_CTRL ||| (LCD_I2C 0x27 1 0 0)._ctrlFlags) :=
  (backlight_update (LCD_I2C 0x27 1 0 0) (reachable_construct _ _ _ _)).2.2.2.2.2.2.2
    (by rw [construct_isReady]; decide)

theorem clear_frame (s : State) :
    ∃ evs, clear s = { s with trace := s.trace ++ evs ++ [.delay CLEAR_WAIT_MS] } := by
  obtain ⟨evs, h⟩ := sendCmd_events s CMD_CLEAR
  refine ⟨evs, ?_⟩
  show emit (sendCmd s CMD_CLEAR) (.delay CLEAR_WAIT_MS) = _
  have h' : sendCmd s CMD_CLEAR = { s with trace := s.trace ++ evs } := h s._ctrlFlags s.trace
  rw [h']
  rfl

/-- C15: `clear()` is `sendCmd(CMD_CLEAR)` with `CMD_CLEAR` = 0x01 followed by
`delay(CLEAR_WAIT_MS)` with `CLEAR_WAIT_MS` = 2, so a wait of at least 2 ms.
For every object state the wait is the last event that `clear()` adds, and
`_ctrlFlags`, `_backlightStatus` and `_isReady` keep their values.  On a ready
object the events before the wait are the two command-nibble pulses of 0x01
(nibble 0, then nibble 1): four transport writes. -/
theorem clear_then_wait (s : State) (hs : Reachable s) :
    CMD_CLEAR = 0x01 ∧ 2 ≤ CLEAR_WAIT_MS ∧
    clear s = emit (sendCmd s CMD_CLEAR) (.delay CLEAR_WAIT_MS) ∧
    (∃ evs, clear s = { s with trace := s.trace ++ evs ++ [.delay CLEAR_WAIT_MS] }) ∧
    (clear s)._ctrlFlags = s._ctrlFlags ∧
    (clear s)._backlightStatus = s._backlightStatus ∧
    (clear s)._isReady = s._isReady ∧
    (s._isReady ≠ 0 →
      (clear s).trace =
        s.trace ++
          (specNibblePulse s._i2cAddr 0 s._backlightStatus 0x0 ++
            specNibblePulse s._i2cAddr 0 s._backlightStatus 0x1) ++
          [.delay 2] ∧
      writes (clear s).trace =
        writes s.trace ++
          [0x0 <<< 4 ||| 0 ||| s._backlightStatus ||| 0x04,
           0x0 <<< 4 ||| 0 ||| s._backlightStatus,
           0x1 <<< 4 ||| 0 ||| s._backlightStatus ||| 0x04,
           0x1 <<< 4 ||| 0 ||| s._backlightStatus]) := by
  obtain ⟨hw, hi⟩ := reachable_inv hs
  obtain ⟨evs, hcl⟩ := clear_frame s
  refine ⟨rfl, by decide, rfl, ⟨evs, hcl⟩, by rw [hcl], by rw [hcl], by rw [hcl], ?_⟩
  intro hr
  obtain ⟨hb, -⟩ := hi hr
  have ht := congrArg State.trace (clear_ready s hw hr hb)
  simp only [] at ht
  rw [ht]
  refine ⟨rfl, ?_⟩
  simp only [writes_append, writes_delay, List.append_nil]
  rfl

theorem clear_then_wait_witness :
    (clear (LCD_I2C 0x27 1 0 0)).trace =
        (LCD_I2C 0x27 1 0 0).trace ++
          (specNibblePulse (LCD_I2C 0x27 1 0 0)._i2cAddr 0
              (LCD_I2C 0x27 1 0 0)._backlightStatus 0x0 ++
            specNibblePulse (LCD_I2C 0x27 1 0 0)._i2cAddr 0
              (LCD_I2C 0x27 1 0 0)._backlightStatus 0x1) ++
          [.delay 2] :=
  ((clear_then_wait (LCD_I2C 0x27 1 0 0) (reachable_construct _ _ _ _)).2.2.2.2.2.2.2
    (by rw [construct_isReady]; decide)).1

/-! ## The flag bytes of a ready object -/

theorem setCursor_byte_ge (x y : Nat) :
    0x80 ≤ u8 (0x80 ||| ((if x ≥ 16 then 15 else x) + (if y ≥ 2 then 1 else y) * 0x40)) := by
  have hx : (if x ≥ 16 then 15 else x) < 16 := by split <;> omega
  have hy : (if y ≥ 2 then 1 else y) < 2 := by split <;> omega
  obtain ⟨h1, h2, -, -⟩ := ddram_byte _ hx _ hy
  have h1' : 0x80 ||| ((if x ≥ 16 then 15 else x) + (if y ≥ 2 then 1 else y) * 0x40) =
      0x80 + (if x ≥ 16 then 15 else x) + 0x40 * (if y ≥ 2 then 1 else y) := h1
  rw [h1', u8, Nat.mod_eq_of_lt h2]
  omega

/-- What a public call sends on a ready object: either data bytes only, or one
command byte (followed by no further write), which is the clear command 0x01, a
set-DDRAM command (0x80 or more), or the display-control command 0x08 or
0x0C. -/
theorem step_commands {s t : State} (h : Step s t) (hw : Wired s) (hr : s._isReady ≠ 0)
    (hb : s._backlightStatus = 0 ∨ s._backlightStatus = 8)
    (hc : s._ctrlFlags = 0 ∨ s._ctrlFlags = 4) :
    (∃ cs : List Nat, t.trace =
      s.trace ++ cs.flatMap (fun c => specByte s._i2cAddr 1 s._backlightStatus (u8 c))) ∨
    (∃ byte rest, t.trace = s.trace ++ specByte s._i2cAddr 0 t._backlightStatus byte ++ rest ∧
      writes rest = [] ∧ (byte = 0x01 ∨ 0x80 ≤ byte ∨ byte = 0x08 ∨ byte = 0x0C)) := by
  have hv : u8 (0x08 ||| s._ctrlFlags) = 0x08 ∨ u8 (0x08 ||| s._ctrlFlags) = 0x0C := by
    rcases hc with h | h <;> rw [h]
    · exact Or.inl rfl
    · exact Or.inr rfl
  have hon : u8 (0x08 ||| u8 (s._ctrlFlags ||| 0x04)) = 0x0C := by
    rcases hc with h | h <;> rw [h] <;> rfl
  have hoff : u8 (0x08 ||| u8 (s._ctrlFlags &&& 0xFB)) = 0x08 := by
    rcases hc with h | h <;> rw [h] <;> rfl
  cases h with
  | clear =>
    rw [clear_ready s hw hr hb]
    exact Or.inr ⟨0x01, [.delay 2], rfl, rfl, Or.inl rfl⟩
  | setCursor x y =>
    rw [setCursor_ready s hw hr hb]
    exact Or.inr ⟨_, [], (List.append_nil _).symm, rfl, Or.inr (Or.inl (setCursor_byte_ge x y))⟩
  | backlightOn =>
    rw [backlightOn_ready s hw hr]
    exact Or.inr ⟨_, [], (List.append_nil _).symm, rfl, Or.inr (Or.inr hv)⟩
  | backlightOff =>
    rw [backlightOff_ready s hw hr]
    exact Or.inr ⟨_, [], (List.append_nil _).symm, rfl, Or.inr (Or.inr hv)⟩
  | displayOn =>
    rw [displayOn_ready s hw hr hb]
    exact Or.inr ⟨_, [], (List.append_nil _).symm, rfl, Or.inr (Or.inr (Or.inr hon))⟩
  | displayOff =>
    rw [displayOff_ready s hw hr hb]
    exact Or.inr ⟨_, [], (List.append_nil _).symm, rfl, Or.inr (Or.inr (Or.inl hoff))⟩
  | print _ msg fuel hp =>
    obtain ⟨cs, hcs⟩ := printLoop_fold msg fuel 0 s t hp
    rw [hcs, foldl_printChar_ready s hw hr hb cs s.trace]
    exact Or.inl ⟨cs, rfl⟩
  | printChar v =>
    rw [printChar_ready s hw hr hb]
    exact Or.inl ⟨[v], by simp⟩

/-- C16: in every state reached from a construction with a successful probe by
public calls, the object is ready, `_ctrlFlags` is 0x00 or 0x04 and
`_backlightStatus` is 0x00 or 0x08.  Every further public call sends either
data bytes only or one command byte, which is 0x01 (clear), at least 0x80 (set
DDRAM), or the display-control command 0x08 or 0x0C; the four control
operations send 0x08 or 0x0C.  The construction itself sends the control
commands 0x08, 0x08 and 0x0C.  In 0x08 and 0x0C the cursor and blink bits are
clear and no bit above 0x08 is set. -/
theorem control_flags_in_range (i2cAddr response ctrl0 bl0 : Nat) (s : State)
    (hr : response ≠ 0)
    (hrun : Relation.ReflTransGen Step (LCD_I2C i2cAddr response ctrl0 bl0) s) :
    s._isReady ≠ 0 ∧
    (s._ctrlFlags = 0x00 ∨ s._ctrlFlags = 0x04) ∧
    (s._backlightStatus = 0x00 ∨ s._backlightStatus = 0x08) ∧
    (∀ t, Step s t →
      (∃ cs : List Nat, t.trace =
        s.trace ++ cs.flatMap (fun c => specByte s._i2cAddr 1 s._backlightStatus (u8 c))) ∨
      (∃ byte rest, t.trace = s.trace ++ specByte s._i2cAddr 0 t._backlightStatus byte ++ rest ∧
        writes rest = [] ∧ (byte = 0x01 ∨ 0x80 ≤ byte ∨ byte = 0x08 ∨ byte = 0x0C))) ∧
    (∀ t, (t = backlightOn s ∨ t = backlightOff s ∨ t = displayOn s ∨ t = displayOff s) →
      ∃ byte, t.trace = s.trace ++ specByte s._i2cAddr 0 t._backlightStatus byte ∧
        (byte = 0x08 ∨ byte = 0x0C)) ∧
    (LCD_I2C i2cAddr response ctrl0 bl0).trace =
        [.wireBegin, .requestFrom i2cAddr 1, .wireRead] ++ specTransfer i2cAddr 0x00 ++
        [.delay 150] ++
        specNibblePulse i2cAddr 0 0 0x3 ++ [.delayMicroseconds 4200] ++
        specNibblePulse i2cAddr 0 0 0x3 ++ [.delayMicroseconds 110] ++
        specNibblePulse i2cAddr 0 0 0x3 ++ [.delayMicroseconds 110] ++
        specNibblePulse i2cAddr 0 0 0x2 ++
        specByte i2cAddr 0 0 0x28 ++
        specByte i2cAddr 0 0 0x08 ++
        specByte i2cAddr 0 0 0x01 ++ [.delay 2] ++
        specByte i2cAddr 0 0 0x06 ++
        specByte i2cAddr 0 0x08 0x08 ++
        specByte i2cAddr 0 0x08 0x0C ∧
    (∀ byte, byte = 0x08 ∨ byte = 0x0C →
      byte &&& (CTRL_CURSOR_ON ||| CTRL_BLINK_ON) = 0 ∧ byte &&& 0xF0 = 0 ∧
        byte &&& CMD_CTRL = CMD_CTRL) := by
  obtain ⟨hw0, hr0, -, hi0⟩ := construct_inv i2cAddr response ctrl0 bl0
  obtain ⟨k1, -, hw, hi⟩ := run_inv hrun hw0 hi0
  have hready : s._isReady ≠ 0 := by rw [k1, hr0]; exact hr
  obtain ⟨hb, hc⟩ := hi hready
  have hv : u8 (0x08 ||| s._ctrlFlags) = 0x08 ∨ u8 (0x08 ||| s._ctrlFlags) = 0x0C := by
    rcases hc with h | h <;> rw [h]
    · exact Or.inl rfl
    · exact Or.inr rfl
  have hon : u8 (0x08 ||| u8 (s._ctrlFlags ||| 0x04)) = 0x0C := by
    rcases hc with h | h <;> rw [h] <;> rfl
  have hoff : u8 (0x08 ||| u8 (s._ctrlFlags &&& 0xFB)) = 0x08 := by
    rcases hc with h | h <;> rw [h] <;> rfl
  refine ⟨hready, hc, hb, fun t ht => step_commands ht hw hready hb hc, fun t ht => ?_,
    congrArg State.trace (construct_ready i2cAddr response ctrl0 bl0 hr), fun byte hbyte => ?_⟩
  · rcases ht with h | h | h | h <;> subst h
    · rw [backlightOn_ready s hw hready]
      exact ⟨_, rfl, hv⟩
    · rw [backlightOff_ready s hw hready]
      exact ⟨_, rfl, hv⟩
    · rw [displayOn_ready s hw hready hb]
      exact ⟨_, rfl, Or.inr hon⟩
    · rw [displayOff_ready s hw hready hb]
      exact ⟨_, rfl, Or.inl hoff⟩
  · rcases hbyte with h | h <;> subst h <;> decide

theorem control_flags_in_range_witness :
    (displayOff (backlightOff (LCD_I2C 0x27 1 0 0)))._isReady ≠ 0 ∧
    ((displayOff (backlightOff (LCD_I2C 0x27 1 0 0)))._ctrlFlags = 0x00 ∨
      (displayOff (backlightOff (LCD_I2C 0x27 1 0 0)))._ctrlFlags = 0x04) ∧
    ((displayOff (backlightOff (LCD_I2C 0x27 1 0 0)))._backlightStatus = 0x00 ∨
      (displayOff (backlightOff (LCD_I2C 0x27 1 0 0)))._backlightStatus = 0x08) :=
  have h := control_flags_in_range 0x27 1 0 0 _ (by decide)
    ((Relation.ReflTransGen.refl.tail (Step.backlightOff _)).tail (Step.displayOff _))
  ⟨h.1, h.2.1, h.2.2.1⟩

/-- C17: the wire encoding loses nothing.  On a ready object, for every byte
`b`, `sendCmd b` and `printChar b` each add four writes w0, w1, w2, w3, and the
upper four bits of the two enable-clear writes give `b` back:
`((w1 >> 4) << 4) | (w3 >> 4) = b`, whatever the backlight flag and whether the
byte is a command or data. -/
theorem wire_encoding_lossless (s : State) (hs : Reachable s) (hr : s._isReady ≠ 0)
    (b : Nat) (hb : b < 256) :
    (∃ w0 w1 w2 w3, writes (sendCmd s b).trace = writes s.trace ++ [w0, w1, w2, w3] ∧
      (w1 >>> 4) <<< 4 ||| (w3 >>> 4) = b) ∧
    (∃ w0 w1 w2 w3, writes (printChar s b).trace = writes s.trace ++ [w0, w1, w2, w3] ∧
      (w1 >>> 4) <<< 4 ||| (w3 >>> 4) = b) := by
  obtain ⟨hw, hi⟩ := reachable_inv hs
  obtain ⟨hbl, -⟩ := hi hr
  have hu : u8 b = b := Nat.mod_eq_of_lt hb
  rw [sendCmd_ready s hw hr hbl, printChar_ready s hw hr hbl, hu]
  simp only [writes_append]
  obtain ⟨w0, w1, w2, w3, h1, -, -, h4⟩ :=
    specByte_decode s._i2cAddr 0 s._backlightStatus b (by decide) hbl hb
  obtain ⟨v0, v1, v2, v3, k1, -, -, k4⟩ :=
    specByte_decode s._i2cAddr 1 s._backlightStatus b (by decide) hbl hb
  exact ⟨⟨w0, w1, w2, w3, by rw [h1], h4⟩, ⟨v0, v1, v2, v3, by rw [k1], k4⟩⟩

theorem wire_encoding_lossless_witness :
    (∃ w0 w1 w2 w3,
      writes (sendCmd (backlightOff (LCD_I2C 0x27 1 0 0)) 0xA5).trace =
        writes (backlightOff (LCD_I2C 0x27 1 0 0)).trace ++ [w0, w1, w2, w3] ∧
      (w1 >>> 4) <<< 4 ||| (w3 >>> 4) = 0xA5) ∧
    (∃ w0 w1 w2 w3,
      writes (printChar (backlightOff (LCD_I2C 0x27 1 0 0)) 0xA5).trace =
        writes (backlightOff (LCD_I2C 0x27 1 0 0)).trace ++ [w0, w1, w2, w3] ∧
      (w1 >>> 4) <<< 4 ||| (w3 >>> 4) = 0xA5) :=
  wire_encoding_lossless (backlightOff (LCD_I2C 0x27 1 0 0))
    ⟨0x27, 1, 0, 0, Relation.ReflTransGen.refl.tail (Step.backlightOff _)⟩
    (by
      obtain ⟨evs, h⟩ := backlightOff_frame (LCD_I2C 0x27 1 0 0)
      rw [h]
      show (LCD_I2C 0x27 1 0 0)._isReady ≠ 0
      rw [construct_isReady]
      decide)
    0xA5 (by decide)

/-! ## The probe -/

theorem initI2C_eq (s : State) (response : Nat) :
    initI2C s response =
      ({ s with
          _isReady := response
          trace := s.trace ++ [.wireBegin, .requestFrom s._i2cAddr 1, .wireRead] ++
            (if response ≠ 0 then specTransfer s._i2cAddr 0x00 else []) }, response) := by
  unfold initI2C
  by_cases h : response = 0
  · subst h
    simp [emit]
  · simp [emit, writeI2C_eq, h]

/-- C18: `initI2C` on a successful probe makes exactly one transport write, of
the byte 0x00, after the probe and before anything else, and returns the probe
answer; on a failed probe it makes no write.  The transport writes of a whole
successful construction are this 0x00 followed by 16 enable pulse pairs (enable
set, then the same byte with enable clear): 4 single-nibble pulses and 6
two-nibble commands, 33 writes in all. -/
theorem initI2C_then_33_writes (s : State) (i2cAddr response ctrl0 bl0 : Nat) :
    (response ≠ 0 →
      (initI2C s response).1.trace =
        s.trace ++ [.wireBegin, .requestFrom s._i2cAddr 1, .wireRead] ++
          specTransfer s._i2cAddr 0x00 ∧
      writes (initI2C s response).1.trace = writes s.trace ++ [0x00] ∧
      (initI2C s response).2 = response ∧
      writes (LCD_I2C i2cAddr response ctrl0 bl0).trace =
        0x00 :: [0x30, 0x30, 0x30, 0x20,
                 0x20, 0x80, 0x00, 0x80, 0x00, 0x10, 0x00, 0x60,
                 0x08, 0x88, 0x08, 0xC8].flatMap (fun p => [p ||| 0x04, p]) ∧
      (writes (LCD_I2C i2cAddr response ctrl0 bl0).trace).length = 33) ∧
    (response = 0 →
      writes (initI2C s response).1.trace = writes s.trace ∧
      (initI2C s response).2 = 0 ∧
      writes (LCD_I2C i2cAddr response ctrl0 bl0).trace = []) ∧
    [0x30, 0x30, 0x30, 0x20, 0x20, 0x80, 0x00, 0x80, 0x00, 0x10, 0x00, 0x60,
      0x08, 0x88, 0x08, 0xC8].length = 4 + 6 * 2 ∧
    (∀ p ∈ [0x30, 0x30, 0x30, 0x20, 0x20, 0x80, 0x00, 0x80, 0x00, 0x10, 0x00, 0x60,
      0x08, 0x88, 0x08, 0xC8], p &&& 0x04 = 0 ∧ (p ||| 0x04) &&& 0xFB = p) := by
  refine ⟨fun h => ?_, fun h => ?_, rfl, by decide⟩
  · have e1 : (initI2C s response).1.trace =
        s.trace ++ [.wireBegin, .requestFrom s._i2cAddr 1, .wireRead] ++
          specTransfer s._i2cAddr 0x00 := by
      rw [initI2C_eq]
      simp only [if_pos h]
    have e2 : (initI2C s response).2 = response := by rw [initI2C_eq]
    have e3 : writes [Event.wireBegin, .requestFrom s._i2cAddr 1, .wireRead] = [] := rfl
    refine ⟨e1, ?_, e2, ?_, ?_⟩
    · rw [e1, writes_append, writes_append, writes_specTransfer, e3, List.append_nil]
    · rw [construct_writes i2cAddr response ctrl0 bl0 h]
      decide
    · rw [construct_writes i2cAddr response ctrl0 bl0 h]
      rfl
  · subst h
    have e1 : (initI2C s 0).1.trace =
        s.trace ++ [.wireBegin, .requestFrom s._i2cAddr 1, .wireRead] := by
      rw [initI2C_eq]
      simp
    have e2 : (initI2C s 0).2 = 0 := by rw [initI2C_eq]
    have e3 : writes [Event.wireBegin, .requestFrom s._i2cAddr 1, .wireRead] = [] := rfl
    refine ⟨?_, e2, ?_⟩
    · rw [e1, writes_append, e3, List.append_nil]
    · rw [construct_idle]
      rfl

theorem initI2C_then_33_writes_witness :
    (writes (LCD_I2C 0x27 1 0 0).trace).length = 33 ∧ writes (LCD_I2C 0x27 0 0 0).trace = [] :=
  ⟨((initI2C_then_33_writes (LCD_I2C 0x27 0 0 0) 0x27 1 0 0).1 (by decide)).2.2.2.2,
   ((initI2C_then_33_writes (LCD_I2C 0x27 0 0 0) 0x27 0 0 0).2.1 rfl).2.2⟩

end LCD_I2C
